import Mathlib

/-!
Verification development for the `go-errorsx` structured-error library.

The embedding models the package's central value, `errorsx.Error`, as a record
stored in an explicit heap (`St.heap`), so that Go pointer identity becomes
heap-address identity.  Values of Go's `error` interface are modelled by
`ErrVal`: a native `*errorsx.Error` pointer (`.native`), a foreign error
(`.foreign`, carrying its message and the type descriptor that `reflect`
would report), or a `joinError` node (`.join`).

Go details that are runtime inputs (the program counters captured by
`runtime.Callers`) are passed as explicit parameters; machinery that mutates
through pointers (`Type()`'s result cache and in-progress flag) is modelled
by state passing; the recursive functions (`Type`, `FilterByType`,
`errors.Is`, `RootCause`) take a fuel argument, with `none` meaning the fuel
ran out.  Per-instance classifiers (`ErrorTypeInferer` closures stored inside
an `Error`) cannot be Lean functions over the error type itself, so they are
deep-embedded as `InfExpr` programs: constants, a counting classifier (the
instrumentation the spec's cache test demands), resolution of another heap
address (which is how classifiers "call `Type()` on related errors"), and
the first-non-unknown chaining combinator.
-/

namespace Errorsx

/-- Go: `type ErrorType string` (error_type.go). -/
abbrev ErrorType := String

/-- Go: `TypeUnknown ErrorType = "errorsx.unknown"` (error_type.go). -/
def TypeUnknown : ErrorType := "errorsx.unknown"

/-- Go: `TypeInitialization ErrorType = "errorsx.initialization"`. -/
def TypeInitialization : ErrorType := "errorsx.initialization"

/-- Go: `TypeValidation ErrorType = "errorsx.validation"`. -/
def TypeValidation : ErrorType := "errorsx.validation"

/-- Go: `TypeNotFound ErrorType = "errorsx.not_found"`. -/
def TypeNotFound : ErrorType := "errorsx.not_found"

/-- Go: `type StackTrace struct { Frames []uintptr; Msg string }` (stack.go).
Program counters are abstracted to naturals. -/
structure StackTrace where
  Frames : List Nat
  Msg : String
deriving Repr, DecidableEq

/-- Deep embedding of the `ErrorTypeInferer` closures a program can store in
an `Error`.  `const` ignores its argument; `count` is a classifier that
increments the instrumentation counter before returning (the shape used by
the caching test); `typeOfAddr b` models a closure that calls `Type()` on a
captured related error (heap address `b`) and returns that result;
`chain2 i j` is `ChainInferers(i, j)`: `j` is consulted only when `i`
returns `TypeUnknown`. -/
inductive InfExpr where
  | const (t : ErrorType)
  | count (t : ErrorType)
  | typeOfAddr (b : Nat)
  | chain2 (i j : InfExpr)
deriving Repr, DecidableEq

/-- Type descriptor of a foreign (non-errorsx) error, as `reflect` sees it
after the pointer dereference in `getCauseTypeName`: package path, type
name, and the full type string used as fallback. -/
structure Foreign where
  fmsg : String
  pkgPath : String
  tyName : String
  tyString : String
deriving Repr, DecidableEq

/-- A value of Go's `error` interface, as the library can encounter it:
a native `*errorsx.Error` (a heap address), a foreign error with an optional
single-unwrap cause, or a `joinError` whose `Unwrap() []error` returns the
member list.  Foreign errors are modelled as comparable values whose
interface equality is structural. -/
inductive ErrVal where
  | native (a : Nat)
  | foreign (f : Foreign) (cause : Option ErrVal)
  | join (errs : List ErrVal)
deriving Repr

/-- Go: the `Error` struct (error.go), including the two resolution-cache
fields that `Type()` (error_type.go) and the option configurators
(option.go) read and write: `computedErrType` (empty string = no cached
result) and `computing` (resolution in progress).  `messageData any` is
modelled as an opaque optional string; the `stackTraceCleaner` function
field only affects display formatting and is not part of the model. -/
structure ErrorData where
  id : String
  msg : String
  errType : ErrorType
  typeInferer : Option InfExpr
  status : Nat
  messageData : Option String
  stackTraces : List StackTrace
  cause : Option ErrVal
  isNotFound : Bool
  isRetryable : Bool
  isStacked : Bool
  computedErrType : ErrorType
  computing : Bool
deriving Repr

/-- The program state: the heap of `*errorsx.Error` allocations, the
process-wide `globalInferer` registry (error_type.go), and the
instrumentation counter bumped by `InfExpr.count` classifiers. -/
structure St where
  heap : List ErrorData
  globalInferer : Option InfExpr
  counter : Nat
deriving Repr

/-- Replace the record at heap address `a` by `f` of it; no-op when `a` is
not allocated (Go cannot produce such an access; totality device only). -/
def modifyAt (heap : List ErrorData) (a : Nat) (f : ErrorData → ErrorData) :
    List ErrorData :=
  match heap[a]? with
  | some e => heap.set a (f e)
  | none => heap

/-- Allocate a fresh `*Error`: the address is the current heap size. -/
def allocSt (st : St) (e : ErrorData) : Nat × St :=
  (st.heap.length, { st with heap := st.heap ++ [e] })

/-- Go: the struct literal inside `New` (error.go): `msg` starts as `id`,
the type is the unknown sentinel, everything else is the zero value. -/
def baseError (id : String) : ErrorData :=
  { id := id
    msg := id
    errType := TypeUnknown
    typeInferer := none
    status := 0
    messageData := none
    stackTraces := []
    cause := none
    isNotFound := false
    isRetryable := false
    isStacked := false
    computedErrType := ""
    computing := false }

/-- Deep embedding of the `Option` configurators (option.go). -/
inductive OptionF where
  | withType (t : ErrorType)
  | withTypeInferer (i : InfExpr)
  | withHTTPStatus (s : Nat)
  | withMessage (d : String)
  | withNotFound
  | withRetryable
deriving Repr, DecidableEq

/-- Go: the bodies of the `Option` constructors (option.go).  `WithType`
clears any inferer and the resolution cache; `WithTypeInferer` resets the
explicit type to the unknown sentinel and clears the cache. -/
def applyOpt (e : ErrorData) : OptionF → ErrorData
  | .withType t =>
      { e with errType := t, typeInferer := none, computedErrType := "",
               computing := false }
  | .withTypeInferer i =>
      { e with typeInferer := some i, errType := TypeUnknown,
               computedErrType := "", computing := false }
  | .withHTTPStatus s => { e with status := s }
  | .withMessage d => { e with messageData := some d }
  | .withNotFound => { e with isNotFound := true }
  | .withRetryable => { e with isRetryable := true }

/-- Go: `New(id string, opts ...Option) *Error` (error.go): build the base
record, apply the configurators in order, allocate. -/
def New (st : St) (id : String) (opts : List OptionF) : Nat × St :=
  allocSt st (opts.foldl applyOpt (baseError id))

/-- Go: `func (e *Error) WithType(typ ErrorType) *Error` (error_type.go):
clone with the explicit type set, the inferer and the cache cleared.
`none` only on an unallocated address. -/
def WithType (st : St) (a : Nat) (t : ErrorType) : Option (Nat × St) :=
  (st.heap[a]?).map fun e =>
    allocSt st { e with errType := t, typeInferer := none,
                        computedErrType := "", computing := false }

/-- Go: `func (e *Error) WithTypeInferer(inferer ErrorTypeInferer) *Error`
(error_type.go): clone with the inferer set, the explicit type reset to the
unknown sentinel and the cache cleared. -/
def WithTypeInferer (st : St) (a : Nat) (i : InfExpr) : Option (Nat × St) :=
  (st.heap[a]?).map fun e =>
    allocSt st { e with typeInferer := some i, errType := TypeUnknown,
                        computedErrType := "", computing := false }

/-- Go: `func (e *Error) WithStack(skip int) *Error` (stack.go).  If a stack
was already captured the receiver itself is returned; otherwise a clone is
allocated whose stacks gain a new snapshot `{Frames: callersWithSkip(skip),
Msg: e.msg}` at the front.  The captured program counters are a runtime
input and enter as the `newFrames` parameter. -/
def WithStack (newFrames : List Nat) (st : St) (a : Nat) : Option (Nat × St) :=
  (st.heap[a]?).map fun e =>
    if e.isStacked then (a, st)
    else allocSt st
      { e with stackTraces := ⟨newFrames, e.msg⟩ :: e.stackTraces, isStacked := true }

/-- Go: `func (e *Error) WithCallerStack() *Error` is `e.WithStack(1)`; the
skip only changes which program counters the runtime hands back, which is
the `newFrames` parameter here. -/
def WithCallerStack (newFrames : List Nat) (st : St) (a : Nat) :
    Option (Nat × St) :=
  WithStack newFrames st a

/-- Go (stack.go, inside `WithCause`): `if causeErr, ok := cause.(*Error);
ok && len(causeErr.stacks) > 0` — the snapshots appended after the wrapper's
own new snapshot. -/
def causeExtraStacks (st : St) : Option ErrVal → List StackTrace
  | some (.native b) =>
      match st.heap[b]? with
      | some ce => if ce.stackTraces.length > 0 then ce.stackTraces else []
      | none => []
  | _ => []

/-- Go: `func (e *Error) WithCause(cause error) *Error` (stack.go).  A
receiver that already captured a stack is returned unchanged.  Otherwise the
clone gets the cause, a snapshot captured at the caller (`newFrames`)
prepended, the flag set, and — when the cause is a native error already
carrying snapshots — those snapshots appended after the new one. -/
def WithCause (newFrames : List Nat) (st : St) (a : Nat)
    (cause : Option ErrVal) : Option (Nat × St) :=
  (st.heap[a]?).map fun e =>
    if e.isStacked then (a, st)
    else allocSt st
      { e with cause := cause
               stackTraces := ⟨newFrames, e.msg⟩ :: e.stackTraces
                           ++ causeExtraStacks st cause
               isStacked := true }

/-- Go: `func (e *Error) Unwrap() error` (error.go): returns the cause. -/
def Unwrap (st : St) (a : Nat) : Option (Option ErrVal) :=
  (st.heap[a]?).map (·.cause)

/-- Go: `func (e *Error) Stacks() []StackTrace` (stack.go). -/
def Stacks (st : St) (a : Nat) : Option (List StackTrace) :=
  (st.heap[a]?).map (·.stackTraces)

/-- Go: `Join(errs ...error) error` (join file): count the non-nil entries,
return nil when none remain, otherwise collect exactly the non-nil entries
in order into a `joinError`. -/
def Join (errs : List (Option ErrVal)) : Option ErrVal :=
  let retained := errs.filterMap id
  if retained.isEmpty then none else some (.join retained)

/-- Go: `func (e *joinError) Unwrap() []error`, and its absence on the other
shapes: only a join node exposes the unwrap-to-sequence accessor. -/
def joinUnwrap : ErrVal → Option (List ErrVal)
  | .join l => some l
  | _ => none

mutual

/-- `Error()` of an `ErrVal`: a native error returns its `msg` (error.go), a
foreign error its own message, a `joinError` the `"; "`-joined messages of
its members (join file). -/
def errMsg : St → ErrVal → String
  | st, .native a =>
      match st.heap[a]? with
      | some e => e.msg
      | none => ""
  | _, .foreign f _ => f.fmsg
  | st, .join l => joinErrMsgs st l

/-- The `strings.Builder` loop of `joinError.Error()`: members' messages
separated by `"; "`. -/
def joinErrMsgs : St → List ErrVal → String
  | _, [] => ""
  | st, [v] => errMsg st v
  | st, v :: rest => errMsg st v ++ "; " ++ joinErrMsgs st rest

end

/-- Set the `computing` flag of the record at address `a`. -/
def setComputing (st : St) (a : Nat) (b : Bool) : St :=
  { st with heap := modifyAt st.heap a (fun e => { e with computing := b }) }

/-- Store `r` in the `computedErrType` cache of the record at address `a`. -/
def setCache (st : St) (a : Nat) (r : ErrorType) : St :=
  { st with heap := modifyAt st.heap a (fun e => { e with computedErrType := r }) }

/-- Go: `func (e *Error) handleRecursion() ErrorType` (error_type.go): when
resolution re-enters an instance in progress, return the explicit type if it
is not the unknown sentinel, otherwise the unknown sentinel. -/
def handleRecursion (e : ErrorData) : ErrorType :=
  if e.errType ≠ TypeUnknown then e.errType else TypeUnknown

/-- Run a deep-embedded classifier program.  `tf` is the resolver made
available to classifiers that call `Type()` on a related error (it is
instantiated with `typeFuel` at one fuel less). -/
def evalInf (tf : St → Nat → Option (ErrorType × St)) :
    St → InfExpr → Option (ErrorType × St)
  | st, .const t => some (t, st)
  | st, .count t => some (t, { st with counter := st.counter + 1 })
  | st, .typeOfAddr b => tf st b
  | st, .chain2 i j =>
      match evalInf tf st i with
      | none => none
      | some (t, st') =>
          if t ≠ TypeUnknown then some (t, st') else evalInf tf st' j

/-- Go: `func (e *Error) tryGlobalInferer() ErrorType` (error_type.go): read
the global inferer under the lock; if set and it returns non-unknown, return
that; otherwise the unknown sentinel. -/
def tryGlobalInferer (tf : St → Nat → Option (ErrorType × St)) (st : St) :
    Option (ErrorType × St) :=
  match st.globalInferer with
  | some g =>
      match evalInf tf st g with
      | none => none
      | some (t, st') =>
          if t ≠ TypeUnknown then some (t, st') else some (TypeUnknown, st')
  | none => some (TypeUnknown, st)

/-- Go: `func (e *Error) computeErrorType() ErrorType` (error_type.go):
explicit non-unknown type first; else the instance inferer if it yields
non-unknown; else fall through to the global inferer. -/
def computeErrorType (tf : St → Nat → Option (ErrorType × St)) (st : St)
    (a : Nat) : Option (ErrorType × St) :=
  match st.heap[a]? with
  | none => none
  | some e =>
      if e.errType ≠ TypeUnknown then some (e.errType, st)
      else
        match e.typeInferer with
        | some inf =>
            match evalInf tf st inf with
            | none => none
            | some (t, st') =>
                if t ≠ TypeUnknown then some (t, st')
                else tryGlobalInferer tf st'
        | none => tryGlobalInferer tf st

/-- Go: `func (e *Error) Type() ErrorType` (error_type.go), fuelled.  Return
the cached result if present; if resolution is already in progress on this
instance, short-circuit through `handleRecursion`; otherwise mark the
instance as computing, compute, cache the result and reset the flag. -/
def typeFuel : Nat → St → Nat → Option (ErrorType × St)
  | 0, _, _ => none
  | f + 1, st, a =>
      match st.heap[a]? with
      | none => none
      | some e =>
          if e.computedErrType ≠ "" then some (e.computedErrType, st)
          else if e.computing then some (handleRecursion e, st)
          else
            match computeErrorType (typeFuel f) (setComputing st a true) a with
            | none => none
            | some (r, st') =>
                some (r, setComputing (setCache st' a r) a false)

/-- Go: the package-level `Type(err error) ErrorType` (error_type.go): a
native error resolves through its `Type()` method, anything else is the
unknown sentinel. -/
def TypeOfErr (f : Nat) (st : St) : Option ErrVal → Option (ErrorType × St)
  | some (.native a) => typeFuel f st a
  | _ => some (TypeUnknown, st)

/-- Modelled from the spec (section 4.3): the priority chain of the type
resolver stated as one four-step cascade — explicit non-unknown category,
then per-instance classifier, then the process-wide classifier, then the
unknown sentinel.  Used only to compare `computeErrorType` against the
spec's wording. -/
def resolveSpec (tf : St → Nat → Option (ErrorType × St)) (st : St)
    (a : Nat) : Option (ErrorType × St) :=
  match st.heap[a]? with
  | none => none
  | some e =>
      if e.errType ≠ TypeUnknown then some (e.errType, st)
      else
        let afterInstance :=
          match e.typeInferer with
          | some inf => evalInf tf st inf
          | none => some (TypeUnknown, st)
        match afterInstance with
        | none => none
        | some (t, st') =>
            if t ≠ TypeUnknown then some (t, st')
            else
              match st'.globalInferer with
              | some g =>
                  match evalInf tf st' g with
                  | none => none
                  | some (t', st'') =>
                      if t' ≠ TypeUnknown then some (t', st'')
                      else some (TypeUnknown, st'')
              | none => some (TypeUnknown, st')

mutual

/-- Go interface-value equality (`==`) between two modelled errors: native
pointers compare by address; foreign errors are modelled as comparable
value types, so they compare structurally; join nodes are compared
structurally as well (the approximation is irrelevant to the traversals
proved here, which never compare join nodes for identity). -/
def errValIdEq : ErrVal → ErrVal → Bool
  | .native a, .native b => a == b
  | .foreign f c, .foreign f' c' => f == f' && errValIdEqOpt c c'
  | .join l, .join l' => errValIdEqList l l'
  | _, _ => false

/-- Interface equality lifted to optional (possibly nil) errors. -/
def errValIdEqOpt : Option ErrVal → Option ErrVal → Bool
  | none, none => true
  | some v, some w => errValIdEq v w
  | _, _ => false

/-- Interface equality on member lists. -/
def errValIdEqList : List ErrVal → List ErrVal → Bool
  | [], [] => true
  | v :: vs, w :: ws => errValIdEq v w && errValIdEqList vs ws
  | _, _ => false

end

mutual

/-- Go: `errors.As(err, &e)` with `e *Error`, specialised to the shapes in
the model: a native error matches immediately, a foreign error is searched
through its single unwrap, a join node through its members in order; the
result is the first native error found in that depth-first order. -/
def errorsAs : ErrVal → Option Nat
  | .native a => some a
  | .foreign _ none => none
  | .foreign _ (some u) => errorsAs u
  | .join l => errorsAsList l

/-- The member loop of `errors.As` over a join node's `Unwrap() []error`. -/
def errorsAsList : List ErrVal → Option Nat
  | [] => none
  | v :: rest =>
      match errorsAs v with
      | some a => some a
      | none => errorsAsList rest

end

/-- Go: `errors.Unwrap(err)`: the single-unwrap accessor.  A native error
returns its cause, a foreign error its cause; a join node has no
`Unwrap() error` method, so nil. -/
def errorsUnwrap (st : St) : ErrVal → Option ErrVal
  | .native a => (st.heap[a]?).bind (·.cause)
  | .foreign _ c => c
  | .join _ => none

mutual

/-- One node of the `walk` closure inside `FilterByType` (error_type.go):
run `errors.As`; on an already-seen native error return at once; on a fresh
native error record it in `seen`, append it to the result when its resolved
type equals `typ`, and continue; continuing means walking every member of a
join node, or the single unwrap otherwise.  `tf` is the fuel handed to each
`Type()` call. -/
def walkFuel : Nat → Nat → ErrorType → St → List Nat → List Nat → ErrVal →
    Option (St × List Nat × List Nat)
  | 0, _, _, _, _, _, _ => none
  | fuel + 1, tf, typ, st, seen, res, v =>
      match errorsAs v with
      | some a =>
          if seen.contains a then some (st, seen, res)
          else
            match typeFuel tf st a with
            | none => none
            | some (t, st') =>
                walkStep fuel tf typ st' (a :: seen)
                  (if t = typ then res ++ [a] else res) v
      | none => walkStep fuel tf typ st seen res v

/-- The tail of one `walk` step: the `Unwrap() []error` branch for join
nodes, then the single-`Unwrap` fallback. -/
def walkStep : Nat → Nat → ErrorType → St → List Nat → List Nat → ErrVal →
    Option (St × List Nat × List Nat)
  | fuel, tf, typ, st, seen, res, v =>
      match v with
      | .join l => walkList fuel tf typ st seen res l
      | _ =>
          match errorsUnwrap st v with
          | some u => walkFuel fuel tf typ st seen res u
          | none => some (st, seen, res)

/-- The member loop of `walk` over a join node (members are non-nil by
construction of `joinError`). -/
def walkList : Nat → Nat → ErrorType → St → List Nat → List Nat →
    List ErrVal → Option (St × List Nat × List Nat)
  | _, _, _, st, seen, res, [] => some (st, seen, res)
  | fuel, tf, typ, st, seen, res, v :: rest =>
      match walkFuel fuel tf typ st seen res v with
      | none => none
      | some (st', seen', res') => walkList fuel tf typ st' seen' res' rest

end

/-- Go: `FilterByType(err error, typ ErrorType) []*Error` (error_type.go):
start the walk with empty `seen` and empty result; a nil argument yields
the empty slice.  The result lists the recorded heap addresses in
append order. -/
def FilterByType (fuel tf : Nat) (st : St) (err : Option ErrVal)
    (typ : ErrorType) : Option (St × List Nat) :=
  match err with
  | none => some (st, [])
  | some v => (walkFuel fuel tf typ st [] [] v).map fun p => (p.1, p.2.2)

/-- Go: `HasType(err error, typ ErrorType) bool` (error_type.go): true iff
`FilterByType` returns a non-empty slice. -/
def HasType (fuel tf : Nat) (st : St) (err : Option ErrVal)
    (typ : ErrorType) : Option Bool :=
  (FilterByType fuel tf st err typ).map fun p => decide (p.2 ≠ [])

mutual

/-- Go: `func (e *Error) Is(target error) bool` (error.go): pointer-equal
targets are the same error; a native target compares by `id`; any other
target delegates to `errors.Is(e.cause, target)`.  (`e == nil` cannot arise
for an allocated address.) -/
def goIs : Nat → St → Nat → Option ErrVal → Option Bool
  | f, st, a, target =>
      match st.heap[a]? with
      | none => none
      | some e =>
          match target with
          | some (.native b) =>
              if b = a then some true
              else
                match st.heap[b]? with
                | none => none
                | some t => some (decide (e.id = t.id))
          | _ => errorsIs f st e.cause target
termination_by f _ _ _ => (f, 2, 0)

/-- Go: `errors.Is(err, target)` (standard library), fuelled: a nil side
matches only a nil side; otherwise compare the interface values, consult the
node's own `Is` method (only native errors have one), then unwrap — single
unwrap continues the loop, a join node tries every member. -/
def errorsIs : Nat → St → Option ErrVal → Option ErrVal → Option Bool
  | 0, _, _, _ => none
  | _ + 1, _, none, target => some target.isNone
  | _ + 1, _, some _, none => some false
  | f + 1, st, some v, some t =>
      if errValIdEq v t then some true
      else
        match v with
        | .native a =>
            match st.heap[a]? with
            | none => none
            | some e =>
                match goIs f st a (some t) with
                | none => none
                | some true => some true
                | some false =>
                    match e.cause with
                    | none => some false
                    | some u => errorsIs f st (some u) (some t)
        | .foreign _ c =>
            match c with
            | none => some false
            | some u => errorsIs f st (some u) (some t)
        | .join l => errorsIsAny f st l t
termination_by f _ _ _ => (f, 0, 0)

/-- The member loop of `errors.Is` over a join node. -/
def errorsIsAny : Nat → St → List ErrVal → ErrVal → Option Bool
  | _, _, [], _ => some false
  | f, st, v :: rest, t =>
      match errorsIs f st (some v) (some t) with
      | none => none
      | some true => some true
      | some false => errorsIsAny f st rest t
termination_by f _ l _ => (f, 1, sizeOf l)

end

/-- Go: `RootCause(err error) error` (stack.go), fuelled: follow the native
`cause` link when present, otherwise the generic single unwrap, and return
the last non-nil node reached (the argument itself when it has no cause;
nil only for a nil argument). -/
def RootCause : Nat → St → Option ErrVal → Option (Option ErrVal)
  | 0, _, _ => none
  | _ + 1, _, none => some none
  | f + 1, st, some v =>
      match (match v with
             | .native a => (st.heap[a]?).bind (·.cause)
             | _ => errorsUnwrap st v) with
      | none => some (some v)
      | some u => RootCause f st (some u)

/-- Go: `extractErrorFrame(e *Error)` (error_type.go): the first frame of
the first (most recent) snapshot, if the error has one.  A `runtime.Frame`
is abstracted to the program counter it resolves; `frames.Next()` on a
non-empty counter list yields the first counter with `more` true iff more
counters follow, matching the guard `more || frame.PC != 0`. -/
def extractErrorFrame (e : ErrorData) : Option Nat :=
  match e.stackTraces with
  | [] => none
  | s :: _ =>
      match s.Frames with
      | [] => none
      | pc :: rest => if rest.length + 1 > 1 ∨ pc ≠ 0 then some pc else none

/-- The reflection part of `getCauseTypeName` (error_type.go): package path
plus type name after pointer dereference, falling back to the full type
string when either is empty. -/
def reflectTypeName (f : Foreign) : String :=
  if f.pkgPath = "" ∨ f.tyName = "" then f.tyString
  else f.pkgPath ++ "." ++ f.tyName

/-- Go: `getCauseTypeName(err error) string` (error_type.go): a native error
reports its resolved `Type()` (safe thanks to the cache), anything else its
reflected type descriptor; a join node reflects as the `joinError`
pointer's element type. -/
def getCauseTypeName (f : Nat) (st : St) : ErrVal → Option (String × St)
  | .native a => typeFuel f st a
  | .foreign fr _ => some (reflectTypeName fr, st)
  | .join _ => some ("github.com/hacomono-lib/go-errorsx.joinError", st)

/-- Go: the classifier returned by `StackTraceInferer(matcher)`
(error_type.go), applied to the error at address `a`: without an error
frame it returns the unknown sentinel at once; otherwise the matcher
receives the frame and — when a cause exists — the cause's type name, the
empty string otherwise. -/
def stackTraceInfererRun (matcher : Nat → String → ErrorType) (f : Nat)
    (st : St) (a : Nat) : Option (ErrorType × St) :=
  match st.heap[a]? with
  | none => none
  | some e =>
      match extractErrorFrame e with
      | none => some (TypeUnknown, st)
      | some fr =>
          match e.cause with
          | none => some (matcher fr "", st)
          | some c =>
              (getCauseTypeName f st c).map fun p => (matcher fr p.1, p.2)

/-! ## Basic heap lemmas -/

theorem allocSt_getElem_old (st : St) (x : ErrorData) (a : Nat)
    (h : a < st.heap.length) : (allocSt st x).2.heap[a]? = st.heap[a]? := by
  simp only [allocSt]
  exact List.getElem?_append_left h

theorem allocSt_getElem_new (st : St) (x : ErrorData) :
    (allocSt st x).2.heap[(allocSt st x).1]? = some x := by
  simp only [allocSt]
  exact List.getElem?_concat_length st.heap x

theorem withStack_noop (st : St) (a : Nat) (e : ErrorData)
    (he : st.heap[a]? = some e) (hs : e.isStacked = true) (fr : List Nat) :
    WithStack fr st a = some (a, st) := by
  simp [WithStack, he, hs]

theorem withCause_noop (st : St) (a : Nat) (e : ErrorData)
    (he : st.heap[a]? = some e) (hs : e.isStacked = true) (fr : List Nat)
    (c : Option ErrVal) : WithCause fr st a c = some (a, st) := by
  simp [WithCause, he, hs]

theorem withStack_result_stacked (st : St) (a : Nat) (fr : List Nat)
    (a₁ : Nat) (st₁ : St) (h : WithStack fr st a = some (a₁, st₁)) :
    ∃ e₁, st₁.heap[a₁]? = some e₁ ∧ e₁.isStacked = true := by
  simp only [WithStack, Option.map_eq_some'] at h
  obtain ⟨e, he, hval⟩ := h
  by_cases hs : e.isStacked = true
  · simp only [hs, if_true] at hval
    have h1 : st.heap[a]? = st₁.heap[a₁]? :=
      congrArg (fun p : Nat × St => p.2.heap[p.1]?) hval
    exact ⟨e, by rw [← h1]; exact he, hs⟩
  · simp only [Bool.not_eq_true] at hs
    simp only [hs, Bool.false_eq_true, if_false] at hval
    have h1 : (allocSt st { e with
        stackTraces := ⟨fr, e.msg⟩ :: e.stackTraces
        isStacked := true }).2.heap[(allocSt st { e with
        stackTraces := ⟨fr, e.msg⟩ :: e.stackTraces
        isStacked := true }).1]? = st₁.heap[a₁]? :=
      congrArg (fun p : Nat × St => p.2.heap[p.1]?) hval
    refine ⟨{ e with
        stackTraces := ⟨fr, e.msg⟩ :: e.stackTraces
        isStacked := true }, ?_, rfl⟩
    rw [← h1]
    exact allocSt_getElem_new st _

theorem withCause_result_stacked (st : St) (a : Nat) (fr : List Nat)
    (c : Option ErrVal) (a₁ : Nat) (st₁ : St)
    (h : WithCause fr st a c = some (a₁, st₁)) :
    ∃ e₁, st₁.heap[a₁]? = some e₁ ∧ e₁.isStacked = true := by
  simp only [WithCause, Option.map_eq_some'] at h
  obtain ⟨e, he, hval⟩ := h
  by_cases hs : e.isStacked = true
  · simp only [hs, if_true] at hval
    have h1 : st.heap[a]? = st₁.heap[a₁]? :=
      congrArg (fun p : Nat × St => p.2.heap[p.1]?) hval
    exact ⟨e, by rw [← h1]; exact he, hs⟩
  · simp only [Bool.not_eq_true] at hs
    simp only [hs, Bool.false_eq_true, if_false] at hval
    have h1 : (allocSt st { e with
        cause := c
        stackTraces := ⟨fr, e.msg⟩ :: e.stackTraces ++ causeExtraStacks st c
        isStacked := true }).2.heap[(allocSt st { e with
        cause := c
        stackTraces := ⟨fr, e.msg⟩ :: e.stackTraces ++ causeExtraStacks st c
        isStacked := true }).1]? = st₁.heap[a₁]? :=
      congrArg (fun p : Nat × St => p.2.heap[p.1]?) hval
    refine ⟨{ e with
        cause := c
        stackTraces := ⟨fr, e.msg⟩ :: e.stackTraces ++ causeExtraStacks st c
        isStacked := true }, ?_, rfl⟩
    rw [← h1]
    exact allocSt_getElem_new st _

/-! ## C4 — capture-once discipline -/

/-- C4: once `isStacked` is true, `WithStack`, `WithCallerStack` and
`WithCause` all return the receiver itself with the state untouched; a
second `WithCallerStack` after a first one returns the first result
unchanged (so the stacks agree with a single call); and a stack-capturing
call after `WithCause` — or a `WithCause` after `WithStack` — is a no-op. -/
theorem capture_once_idempotent (st : St) (a : Nat) (e : ErrorData)
    (he : st.heap[a]? = some e) :
    (e.isStacked = true →
      (∀ fr, WithStack fr st a = some (a, st)) ∧
      (∀ fr, WithCallerStack fr st a = some (a, st)) ∧
      (∀ fr c, WithCause fr st a c = some (a, st))) ∧
    (∀ fr₁ a₁ st₁, WithCallerStack fr₁ st a = some (a₁, st₁) →
      ∀ fr₂, WithCallerStack fr₂ st₁ a₁ = some (a₁, st₁)) ∧
    (∀ fr₁ c a₁ st₁, WithCause fr₁ st a c = some (a₁, st₁) →
      (∀ fr₂, WithStack fr₂ st₁ a₁ = some (a₁, st₁)) ∧
      (∀ fr₂ c₂, WithCause fr₂ st₁ a₁ c₂ = some (a₁, st₁))) ∧
    (∀ fr₁ a₁ st₁, WithStack fr₁ st a = some (a₁, st₁) →
      ∀ fr₂ c₂, WithCause fr₂ st₁ a₁ c₂ = some (a₁, st₁)) := by
  refine ⟨fun hs => ⟨fun fr => withStack_noop st a e he hs fr,
      fun fr => withStack_noop st a e he hs fr,
      fun fr c => withCause_noop st a e he hs fr c⟩, ?_, ?_, ?_⟩
  · intro fr₁ a₁ st₁ h fr₂
    obtain ⟨e₁, he₁, hs₁⟩ := withStack_result_stacked st a fr₁ a₁ st₁ h
    exact withStack_noop st₁ a₁ e₁ he₁ hs₁ fr₂
  · intro fr₁ c a₁ st₁ h
    obtain ⟨e₁, he₁, hs₁⟩ := withCause_result_stacked st a fr₁ c a₁ st₁ h
    exact ⟨fun fr₂ => withStack_noop st₁ a₁ e₁ he₁ hs₁ fr₂,
      fun fr₂ c₂ => withCause_noop st₁ a₁ e₁ he₁ hs₁ fr₂ c₂⟩
  · intro fr₁ a₁ st₁ h fr₂ c₂
    obtain ⟨e₁, he₁, hs₁⟩ := withStack_result_stacked st a fr₁ a₁ st₁ h
    exact withCause_noop st₁ a₁ e₁ he₁ hs₁ fr₂ c₂

/-- A concrete already-stacked error record, for the C4 witness. -/
def c4E : ErrorData := { baseError "w" with isStacked := true }

/-- A concrete one-error heap, for the C4 witness. -/
def c4St : St := ⟨[c4E], none, 0⟩

/-- Witness for C4 at a one-error heap. -/
theorem capture_once_idempotent_witness :
    c4St.heap[0]? = some c4E ∧ WithStack [3] c4St 0 = some (0, c4St) :=
  ⟨rfl, ((capture_once_idempotent c4St 0 c4E rfl).1 rfl).1 [3]⟩

theorem lt_of_getElem?_some {α : Type} {l : List α} {n : Nat} {x : α}
    (h : l[n]? = some x) : n < l.length := by
  rw [List.getElem?_eq_some] at h
  exact h.1

/-! ## C5 — `WithCause` on a fresh error -/

/-- C5: on an error that has not captured a stack, `WithCause c` allocates a
new value — distinct from the receiver, which stays untouched — whose cause
is `c`, whose flag is set, and whose snapshot list starts with the newly
captured snapshot followed by the cause's own snapshots whenever the cause
is a native error that carries some. -/
theorem withCause_attaches (st : St) (a : Nat) (e : ErrorData) (fr : List Nat)
    (c : Option ErrVal) (he : st.heap[a]? = some e)
    (hs : e.isStacked = false) (hempty : e.stackTraces = []) :
    ∃ a₁ st₁, WithCause fr st a c = some (a₁, st₁) ∧ a₁ ≠ a ∧
      st₁.heap[a]? = some e ∧
      ∃ e₁, st₁.heap[a₁]? = some e₁ ∧ e₁.cause = c ∧ e₁.isStacked = true ∧
        e₁.stackTraces = ⟨fr, e.msg⟩ :: causeExtraStacks st c ∧
        (∀ b eb, c = some (.native b) → st.heap[b]? = some eb →
          eb.stackTraces ≠ [] →
          e₁.stackTraces = ⟨fr, e.msg⟩ :: eb.stackTraces) := by
  have hlt : a < st.heap.length := lt_of_getElem?_some he
  refine ⟨st.heap.length,
    { st with heap := st.heap ++ [{ e with
        cause := c
        stackTraces := ⟨fr, e.msg⟩ :: e.stackTraces ++ causeExtraStacks st c
        isStacked := true }] }, ?_, Nat.ne_of_gt hlt, ?_, ?_⟩
  · simp [WithCause, he, hs, allocSt]
  · show (st.heap ++ _)[a]? = some e
    rw [List.getElem?_append_left hlt]
    exact he
  · refine ⟨{ e with
        cause := c
        stackTraces := ⟨fr, e.msg⟩ :: e.stackTraces ++ causeExtraStacks st c
        isStacked := true },
      List.getElem?_concat_length st.heap _, rfl, rfl, by simp [hempty], ?_⟩
    intro b eb hc hb hne
    simp [hempty, hc, causeExtraStacks, hb, List.length_pos.mpr hne]

/-- The native cause used by the C5 witness: already stacked, carrying one
snapshot. -/
def c5Cause : ErrorData :=
  { baseError "c" with stackTraces := [⟨[4], "c"⟩], isStacked := true }

/-- The two-error heap used by the C5 witness. -/
def c5St : St := ⟨[baseError "w", c5Cause], none, 0⟩

/-- Witness for C5: a fresh error wrapping a native cause that already
carries one snapshot. -/
theorem withCause_attaches_witness :
    ∃ a₁ st₁,
      WithCause [9] c5St 0 (some (.native 1)) = some (a₁, st₁) ∧ a₁ ≠ 0 ∧
      st₁.heap[0]? = some (baseError "w") ∧
      ∃ e₁, st₁.heap[a₁]? = some e₁ ∧ e₁.cause = some (.native 1) ∧
        e₁.isStacked = true ∧
        e₁.stackTraces = ⟨[9], "w"⟩ ::
          causeExtraStacks c5St (some (.native 1)) ∧
        (∀ b eb, (some (.native 1) : Option ErrVal) = some (.native b) →
          c5St.heap[b]? = some eb → eb.stackTraces ≠ [] →
          e₁.stackTraces = ⟨[9], "w"⟩ :: eb.stackTraces) :=
  withCause_attaches c5St 0 (baseError "w") [9] (some (.native 1)) rfl rfl rfl

/-! ## C10 — wrapping a nil cause consumes the capture slot -/

/-- C10: `WithCause(nil)` on a not-yet-stacked error still captures a
snapshot and sets the flag on the returned copy while `Unwrap` stays nil;
afterwards every `WithCause`, `WithStack` or `WithCallerStack` on the result
is a no-op, so no real cause can ever be attached. -/
theorem withCause_nil_consumes (st : St) (a : Nat) (e : ErrorData)
    (fr : List Nat) (he : st.heap[a]? = some e) (hs : e.isStacked = false) :
    ∃ a₁ st₁, WithCause fr st a none = some (a₁, st₁) ∧
      ∃ e₁, st₁.heap[a₁]? = some e₁ ∧ e₁.cause = none ∧
        e₁.isStacked = true ∧
        e₁.stackTraces = ⟨fr, e.msg⟩ :: e.stackTraces ∧
        Unwrap st₁ a₁ = some none ∧
        (∀ fr₂ c₂, WithCause fr₂ st₁ a₁ c₂ = some (a₁, st₁)) ∧
        (∀ fr₂, WithStack fr₂ st₁ a₁ = some (a₁, st₁)) ∧
        (∀ fr₂, WithCallerStack fr₂ st₁ a₁ = some (a₁, st₁)) := by
  have hwc : WithCause fr st a none =
      some (allocSt st { e with
        cause := none
        stackTraces := ⟨fr, e.msg⟩ :: e.stackTraces ++ causeExtraStacks st none
        isStacked := true }) := by
    simp [WithCause, he, hs]
  have hget : (allocSt st { e with
        cause := none
        stackTraces := ⟨fr, e.msg⟩ :: e.stackTraces ++ causeExtraStacks st none
        isStacked := true }).2.heap[(allocSt st { e with
        cause := none
        stackTraces := ⟨fr, e.msg⟩ :: e.stackTraces ++ causeExtraStacks st none
        isStacked := true }).1]? = some { e with
        cause := none
        stackTraces := ⟨fr, e.msg⟩ :: e.stackTraces ++ causeExtraStacks st none
        isStacked := true } := allocSt_getElem_new st _
  refine ⟨_, _, hwc, _, hget, rfl, rfl, by simp [causeExtraStacks], ?_, ?_, ?_, ?_⟩
  · simp [Unwrap, hget]
  · intro fr₂ c₂
    exact withCause_noop _ _ _ hget rfl fr₂ c₂
  · intro fr₂
    exact withStack_noop _ _ _ hget rfl fr₂
  · intro fr₂
    exact withStack_noop _ _ _ hget rfl fr₂

/-- Witness for C10 at a one-error heap. -/
theorem withCause_nil_consumes_witness :
    ∃ a₁ st₁,
      WithCause [5] ⟨[baseError "w"], none, 0⟩ 0 none = some (a₁, st₁) ∧
      ∃ e₁, st₁.heap[a₁]? = some e₁ ∧ e₁.cause = none ∧
        e₁.isStacked = true ∧
        e₁.stackTraces = ⟨[5], "w"⟩ :: (baseError "w").stackTraces ∧
        Unwrap st₁ a₁ = some none ∧
        (∀ fr₂ c₂, WithCause fr₂ st₁ a₁ c₂ = some (a₁, st₁)) ∧
        (∀ fr₂, WithStack fr₂ st₁ a₁ = some (a₁, st₁)) ∧
        (∀ fr₂, WithCallerStack fr₂ st₁ a₁ = some (a₁, st₁)) :=
  withCause_nil_consumes ⟨[baseError "w"], none, 0⟩ 0 (baseError "w") [5]
    rfl rfl

/-! ## C7 — `Join` -/

/-- Modelled from the spec (section 4.4): "a JoinNode whose message is the
`\"; \"`-delimited concatenation of each member's message" — the delimited
concatenation of a list of strings, written directly. -/
def specJoinMsg : List String → String
  | [] => ""
  | m :: rest => rest.foldl (fun acc x => acc ++ "; " ++ x) m

theorem foldl_sep_append (l : List String) (p acc : String) :
    p ++ l.foldl (fun a x => a ++ "; " ++ x) acc
      = l.foldl (fun a x => a ++ "; " ++ x) (p ++ acc) := by
  induction l generalizing acc with
  | nil => rfl
  | cons x xs ih =>
      simp only [List.foldl]
      rw [ih]
      simp [String.append_assoc]

theorem joinErrMsgs_spec (st : St) (l : List ErrVal) :
    joinErrMsgs st l = specJoinMsg (l.map (errMsg st)) := by
  induction l with
  | nil => rfl
  | cons v tail ih =>
      cases tail with
      | nil => rfl
      | cons w rest =>
          rw [joinErrMsgs, ih]
          show errMsg st v ++ "; " ++
              (rest.map (errMsg st)).foldl
                (fun acc x => acc ++ "; " ++ x) (errMsg st w) = _
          rw [foldl_sep_append]
          rfl
          simp

/-- C7: `Join` drops the nil entries; with none left it returns nil (so
`Join(nil, nil)` is nil); otherwise the join node's message is the `"; "`-
separated concatenation of the retained members' messages in order
(`Join(a, nil, b)` concatenates `a` and `b`) and its `Unwrap() []error`
accessor returns exactly the retained members, in order and by identity. -/
theorem join_retains_in_order (st : St) (a b : ErrVal)
    (errs : List (Option ErrVal)) :
    Join [some a, none, some b] = some (.join [a, b]) ∧
    errMsg st (.join [a, b]) = errMsg st a ++ "; " ++ errMsg st b ∧
    Join ([none, none] : List (Option ErrVal)) = none ∧
    (match Join errs with
     | some v => joinUnwrap v = some (errs.filterMap id)
     | none => errs.filterMap id = []) ∧
    (∀ l, errMsg st (.join l) = specJoinMsg (l.map (errMsg st))) := by
  refine ⟨rfl, by simp [errMsg, joinErrMsgs], rfl, ?_, ?_⟩
  · show (match Join errs with
      | some v => joinUnwrap v = some (errs.filterMap id)
      | none => errs.filterMap id = [])
    rw [Join]
    by_cases h : (errs.filterMap id).isEmpty
    · simp only [h, if_true]
      exact List.isEmpty_iff.mp h
    · simp only [h, Bool.false_eq_true, if_false]
      rfl
  · intro l
    rw [errMsg]
    exact joinErrMsgs_spec st l

/-! ## C9 — `Is` compares native errors by id -/

/-- C9: `e.Is(e)` holds; between native errors `Is` is exactly equality of
the `id` strings (whatever the categories are), hence symmetric; and for a
non-native target `Is` delegates to the chain-aware `errors.Is` against the
receiver's cause. -/
theorem is_by_id (st : St) (a b : Nat) (ea eb : ErrorData) (f : Nat)
    (ha : st.heap[a]? = some ea) (hb : st.heap[b]? = some eb) :
    goIs f st a (some (.native a)) = some true ∧
    goIs f st a (some (.native b)) = some (decide (ea.id = eb.id)) ∧
    goIs f st a (some (.native b)) = goIs f st b (some (.native a)) ∧
    (∀ target : Option ErrVal, (∀ c, target ≠ some (.native c)) →
      goIs f st a target = errorsIs f st ea.cause target) := by
  have h2 : ∀ (x y : Nat) (ex ey : ErrorData), st.heap[x]? = some ex →
      st.heap[y]? = some ey →
      goIs f st x (some (.native y)) = some (decide (ex.id = ey.id)) := by
    intro x y ex ey hx hy
    by_cases hxy : y = x
    · subst hxy
      rw [hx] at hy
      cases hy
      simp [goIs, hx]
    · simp [goIs, hx, hy, hxy]
  refine ⟨by simp [goIs, ha], h2 a b ea eb ha hb, ?_, ?_⟩
  · rw [h2 a b ea eb ha hb, h2 b a eb ea hb ha]
    simp [eq_comm]
  · intro target ht
    match target with
    | none => simp [goIs, ha]
    | some (.native c) => exact absurd rfl (ht c)
    | some (.foreign fr c) => simp [goIs, ha]
    | some (.join l) => simp [goIs, ha]

/-- The two-error heap (equal ids, different categories) for the C9
witness. -/
def c9St : St :=
  ⟨[{ baseError "same.id" with errType := "cat.one" },
    { baseError "same.id" with errType := "cat.two" }], none, 0⟩

/-- Witness for C9: equal ids with different categories compare as the same
logical error, in both directions. -/
theorem is_by_id_witness :
    goIs 2 c9St 0 (some (.native 0)) = some true ∧
    goIs 2 c9St 0 (some (.native 1)) =
      some (decide (({ baseError "same.id" with errType := "cat.one" }
        : ErrorData).id = ({ baseError "same.id" with errType := "cat.two" }
        : ErrorData).id)) ∧
    goIs 2 c9St 0 (some (.native 1)) = goIs 2 c9St 1 (some (.native 0)) ∧
    (∀ target : Option ErrVal, (∀ c, target ≠ some (.native c)) →
      goIs 2 c9St 0 target =
        errorsIs 2 c9St ({ baseError "same.id" with errType := "cat.one" }
          : ErrorData).cause target) :=
  is_by_id c9St 0 1 _ _ 2 rfl rfl

/-! ## Heap-update lemmas for `modifyAt`, `setComputing`, `setCache` -/

theorem modifyAt_length (h : List ErrorData) (a : Nat)
    (f : ErrorData → ErrorData) : (modifyAt h a f).length = h.length := by
  rw [modifyAt]
  cases h[a]? with
  | none => rfl
  | some e => simp

theorem modifyAt_getElem_self (h : List ErrorData) (a : Nat)
    (f : ErrorData → ErrorData) (e : ErrorData) (he : h[a]? = some e) :
    (modifyAt h a f)[a]? = some (f e) := by
  rw [modifyAt, he]
  exact List.getElem?_set_eq_of_lt (f e) (lt_of_getElem?_some he)

theorem modifyAt_getElem_ne (h : List ErrorData) (a b : Nat)
    (f : ErrorData → ErrorData) (hne : b ≠ a) :
    (modifyAt h a f)[b]? = h[b]? := by
  rw [modifyAt]
  cases h[a]? with
  | none => rfl
  | some e => exact List.getElem?_set_ne (Ne.symm hne)

theorem setComputing_getElem_self (st : St) (a : Nat) (b : Bool)
    (e : ErrorData) (he : st.heap[a]? = some e) :
    (setComputing st a b).heap[a]? = some { e with computing := b } :=
  modifyAt_getElem_self st.heap a _ e he

theorem setComputing_getElem_ne (st : St) (a c : Nat) (b : Bool)
    (hne : c ≠ a) : (setComputing st a b).heap[c]? = st.heap[c]? :=
  modifyAt_getElem_ne st.heap a c _ hne

theorem setCache_getElem_self (st : St) (a : Nat) (r : ErrorType)
    (e : ErrorData) (he : st.heap[a]? = some e) :
    (setCache st a r).heap[a]? = some { e with computedErrType := r } :=
  modifyAt_getElem_self st.heap a _ e he

theorem setCache_getElem_ne (st : St) (a c : Nat) (r : ErrorType)
    (hne : c ≠ a) : (setCache st a r).heap[c]? = st.heap[c]? :=
  modifyAt_getElem_ne st.heap a c _ hne

/-- `Type()` on an error with a fresh cache and an explicit non-unknown
type: the explicit type is returned and only this entry's bookkeeping
fields are touched. -/
theorem typeFuel_explicit (st : St) (a : Nat) (e : ErrorData) (f : Nat)
    (he : st.heap[a]? = some e) (hc : e.computedErrType = "")
    (hp : e.computing = false) (ht : e.errType ≠ TypeUnknown) :
    typeFuel (f + 1) st a =
      some (e.errType,
        setComputing (setCache (setComputing st a true) a e.errType) a
          false) := by
  have h1 : (setComputing st a true).heap[a]? =
      some { e with computing := true } := setComputing_getElem_self st a true e he
  rw [typeFuel, he]
  simp only [hc, hp]
  rw [if_neg (by simp), if_neg (by simp)]
  rw [computeErrorType, h1]
  simp only [ht, if_pos, ne_eq, not_false_iff, if_true]

/-! ## C3 — the resolution priority chain -/

theorem typeFuel_fresh (st : St) (a : Nat) (e : ErrorData) (f : Nat)
    (he : st.heap[a]? = some e) (hc : e.computedErrType = "")
    (hp : e.computing = false) :
    typeFuel (f + 1) st a =
      match computeErrorType (typeFuel f) (setComputing st a true) a with
      | none => none
      | some (r, st') => some (r, setComputing (setCache st' a r) a false) := by
  rw [typeFuel, he]
  simp only [hc, hp]
  rw [if_neg (by simp), if_neg (by simp)]

theorem computeErrorType_eq_resolveSpec
    (tf : St → Nat → Option (ErrorType × St)) (st : St) (a : Nat) :
    computeErrorType tf st a = resolveSpec tf st a := by
  unfold computeErrorType resolveSpec tryGlobalInferer
  cases h : st.heap[a]? with
  | none => rfl
  | some e =>
      by_cases ht : e.errType = TypeUnknown
      · simp only [ht, ne_eq, not_true_eq_false, if_false, ite_false]
        cases hi : e.typeInferer with
        | none =>
            simp only [ne_eq, not_true_eq_false, if_false, ite_false]
        | some inf =>
            cases hev : evalInf tf st inf with
            | none => rfl
            | some p =>
                obtain ⟨t1, st1⟩ := p
                by_cases hp1 : t1 = TypeUnknown
                · subst hp1
                  simp only [ne_eq, not_true_eq_false, if_false, ite_false]
                · simp only [ne_eq, hp1, not_false_iff, if_true, ite_true]
      · simp only [ht, ne_eq, not_false_iff, if_true, ite_true]

/-- C3: `computeErrorType` equals the spec's four-step cascade, and on a
fresh instance `Type()` observes exactly that priority: a non-unknown
explicit type is returned without consulting anything (the counter cannot
move); else a classifier's non-unknown answer; else the global classifier's
non-unknown answer; else the unknown sentinel. -/
theorem type_resolution_priority (st : St) (a : Nat) (e : ErrorData)
    (f : Nat) (he : st.heap[a]? = some e) (hc : e.computedErrType = "")
    (hp : e.computing = false) :
    (∀ (tf : St → Nat → Option (ErrorType × St)) (st' : St) (a' : Nat),
      computeErrorType tf st' a' = resolveSpec tf st' a') ∧
    (e.errType ≠ TypeUnknown →
      (typeFuel (f + 1) st a).map Prod.fst = some e.errType ∧
      (typeFuel (f + 1) st a).map (fun p => p.2.counter) = some st.counter) ∧
    (∀ t, e.errType = TypeUnknown → e.typeInferer = some (.const t) →
      t ≠ TypeUnknown → (typeFuel (f + 1) st a).map Prod.fst = some t) ∧
    (∀ g, e.errType = TypeUnknown → e.typeInferer = none →
      st.globalInferer = some (.const g) → g ≠ TypeUnknown →
      (typeFuel (f + 1) st a).map Prod.fst = some g) ∧
    (∀ g, e.errType = TypeUnknown →
      e.typeInferer = some (.const TypeUnknown) →
      st.globalInferer = some (.const g) → g ≠ TypeUnknown →
      (typeFuel (f + 1) st a).map Prod.fst = some g) ∧
    (e.errType = TypeUnknown → e.typeInferer = none →
      st.globalInferer = none →
      (typeFuel (f + 1) st a).map Prod.fst = some TypeUnknown) := by
  have hup : (setComputing st a true).heap[a]? =
      some { e with computing := true } :=
    setComputing_getElem_self st a true e he
  refine ⟨fun tf st' a' => computeErrorType_eq_resolveSpec tf st' a',
    ?_, ?_, ?_, ?_, ?_⟩
  · intro ht
    rw [typeFuel_explicit st a e f he hc hp ht]
    exact ⟨rfl, rfl⟩
  · intro t ht hi htu
    rw [typeFuel_fresh st a e f he hc hp, computeErrorType, hup]
    simp [ht, hi, evalInf, htu]
  · intro g ht hi hg hgu
    rw [typeFuel_fresh st a e f he hc hp, computeErrorType, hup]
    simp only [ht, ne_eq, not_true_eq_false, if_false, ite_false, hi]
    rw [tryGlobalInferer]
    have : (setComputing st a true).globalInferer = st.globalInferer := rfl
    rw [this, hg]
    simp [evalInf, hgu]
  · intro g ht hi hg hgu
    rw [typeFuel_fresh st a e f he hc hp, computeErrorType, hup]
    simp only [ht, ne_eq, not_true_eq_false, if_false, ite_false, hi]
    rw [show evalInf (typeFuel f) (setComputing st a true)
        (.const TypeUnknown) = some (TypeUnknown, setComputing st a true)
      from rfl]
    simp only [ne_eq, not_true_eq_false, if_false, ite_false]
    rw [tryGlobalInferer]
    have : (setComputing st a true).globalInferer = st.globalInferer := rfl
    rw [this, hg]
    simp [evalInf, hgu]
  · intro ht hi hg
    rw [typeFuel_fresh st a e f he hc hp, computeErrorType, hup]
    simp only [ht, ne_eq, not_true_eq_false, if_false, ite_false, hi]
    rw [tryGlobalInferer]
    have : (setComputing st a true).globalInferer = st.globalInferer := rfl
    rw [this, hg]
    rfl

/-- Heap for the C3 witness: a fresh error whose classifier answers
`"cat.inst"`. -/
def c3St : St :=
  ⟨[{ baseError "p" with typeInferer := some (.const "cat.inst") }],
    some (.const "cat.glob"), 0⟩

/-- Witness for C3: the per-instance classifier's non-unknown answer wins
over the global classifier on a fresh instance. -/
theorem type_resolution_priority_witness :
    (typeFuel 2 c3St 0).map Prod.fst = some "cat.inst" :=
  ((type_resolution_priority c3St 0
      { baseError "p" with typeInferer := some (.const "cat.inst") } 1
      rfl rfl rfl).2.2.1) "cat.inst" rfl rfl (by decide)

/-! ## C8 — the stack-trace-aware classifier -/

/-- C8 (amended): the classifier built by `StackTraceInferer` short-circuits
to the unknown sentinel, without invoking the matcher, whenever the error
carries no snapshot; otherwise it passes the matcher the topmost frame of
the most recent snapshot together with the type name of the error's
immediate cause — which for a native cause is that cause's resolved
category and for a foreign cause its reflected type descriptor, the empty
string when there is no cause at all.  Neither the root cause's type name
nor the explicit category is passed. -/
theorem stackTraceInferer_behavior (st : St) (a : Nat) (e : ErrorData)
    (f : Nat) (he : st.heap[a]? = some e) :
    (e.stackTraces = [] → ∀ matcher,
      stackTraceInfererRun matcher f st a = some (TypeUnknown, st)) ∧
    (∀ fr, extractErrorFrame e = some fr → e.cause = none → ∀ matcher,
      stackTraceInfererRun matcher f st a = some (matcher fr "", st)) ∧
    (∀ fr c s st', extractErrorFrame e = some fr → e.cause = some c →
      getCauseTypeName f st c = some (s, st') → ∀ matcher,
      stackTraceInfererRun matcher f st a = some (matcher fr s, st')) ∧
    (∀ b, getCauseTypeName f st (.native b) = typeFuel f st b) ∧
    (∀ fo cz, getCauseTypeName f st (.foreign fo cz) =
      some (reflectTypeName fo, st)) := by
  refine ⟨?_, ?_, ?_, fun b => rfl, fun fo cz => rfl⟩
  · intro hst matcher
    simp only [stackTraceInfererRun, he]
    rw [show extractErrorFrame e = none from by rw [extractErrorFrame, hst]]
  · intro fr hfr hc matcher
    simp only [stackTraceInfererRun, he]
    rw [hfr, hc]
  · intro fr c sname st' hfr hc hn matcher
    simp only [stackTraceInfererRun, he, hfr, hc]
    rw [hn]
    rfl

/-- The one-error heap of the C8 witness: a single snapshot, no cause. -/
def c8WSt : St :=
  ⟨[{ baseError "w" with stackTraces := [⟨[7], "w"⟩] }], none, 0⟩

/-- Witness for C8 (amended): an error with one snapshot and no cause — the
matcher sees the top frame and the empty type name. -/
theorem stackTraceInferer_behavior_witness :
    stackTraceInfererRun (fun fr s => String.append (toString fr) s) 2
      c8WSt 0 = some (String.append (toString 7) "", c8WSt) :=
  ((stackTraceInferer_behavior c8WSt 0
    { baseError "w" with stackTraces := [⟨[7], "w"⟩] } 2 rfl).2.1) 7 rfl rfl
    (fun fr s => String.append (toString fr) s)

/-- The foreign root-cause descriptor of the C8 counterexample. -/
def c8Root : Foreign := ⟨"boom", "pkg", "Root", "*pkg.Root"⟩

/-- Top of the C8 counterexample chain: one snapshot, native cause at 1. -/
def c8Top : ErrorData :=
  { baseError "top" with stackTraces := [⟨[7], "m"⟩], cause := some (.native 1) }

/-- Middle of the C8 counterexample chain: explicit category `"CAT.mid"`,
foreign root cause below it. -/
def c8Mid : ErrorData :=
  { baseError "mid" with errType := "CAT.mid", cause := some (.foreign c8Root none) }

/-- The C8 counterexample heap. -/
def c8St : St := ⟨[c8Top, c8Mid], none, 0⟩

/-- C8 counterexample: with the matcher that returns the type-name argument
itself, the classifier yields the immediate cause's resolved category
`"CAT.mid"`, although the root cause of the chain is the foreign error
whose structural type name is `"pkg.Root"` — so the matcher is not given
the root cause's type-name (and there is no argument carrying the explicit
category at all). -/
theorem stackTraceInferer_not_root_cause :
    (stackTraceInfererRun (fun _ s => s) 3 c8St 0).map Prod.fst
      = some "CAT.mid" ∧
    RootCause 5 c8St (some (.native 0)) = some (some (.foreign c8Root none)) ∧
    reflectTypeName c8Root = "pkg.Root" ∧
    ("CAT.mid" : String) ≠ "pkg.Root" :=
  ⟨rfl, rfl, rfl, by decide⟩

/-! ## C6 — explicit type and classifier are mutually exclusive -/

/-- A record in which explicit category and classifier do not coexist:
either no classifier is stored, or the explicit type is the unknown
sentinel. -/
def mutexTI (e : ErrorData) : Prop :=
  e.typeInferer = none ∨ e.errType = TypeUnknown

/-- C6: `WithType` clears the classifier and the cached resolution,
`WithTypeInferer` resets the explicit type and the cache — likewise for the
construction-time configurators, so every error built by `New` and these
operations keeps explicit type and classifier mutually exclusive — and in
the scenario classifier-then-explicit-type, resolution returns the explicit
type no matter what the classifier would say. -/
theorem type_classifier_mutual_exclusion (st : St) (a : Nat) (e : ErrorData)
    (he : st.heap[a]? = some e) :
    (∀ t, ∃ st₁, WithType st a t = some (st.heap.length, st₁) ∧
      st₁.heap[st.heap.length]? =
        some { e with errType := t, typeInferer := none,
                      computedErrType := "", computing := false }) ∧
    (∀ i, ∃ st₁, WithTypeInferer st a i = some (st.heap.length, st₁) ∧
      st₁.heap[st.heap.length]? =
        some { e with typeInferer := some i, errType := TypeUnknown,
                      computedErrType := "", computing := false }) ∧
    (∀ e' t, applyOpt e' (.withType t) =
      { e' with errType := t, typeInferer := none, computedErrType := "",
                computing := false }) ∧
    (∀ e' i, applyOpt e' (.withTypeInferer i) =
      { e' with typeInferer := some i, errType := TypeUnknown,
                computedErrType := "", computing := false }) ∧
    (∀ e' opt, mutexTI e' → mutexTI (applyOpt e' opt)) ∧
    (∀ (idStr : String) (opts : List OptionF),
      mutexTI (opts.foldl applyOpt (baseError idStr))) ∧
    (∀ (idStr : String) (i : InfExpr) (t : ErrorType) (f : Nat),
      t ≠ TypeUnknown →
      ((WithTypeInferer (New st idStr []).2 (New st idStr []).1 i).bind
        fun p₂ => (WithType p₂.2 p₂.1 t).bind
          fun p₃ => (typeFuel (f + 1) p₃.2 p₃.1).map Prod.fst) = some t) := by
  refine ⟨?_, ?_, fun e' t => rfl, fun e' i => rfl, ?_, ?_, ?_⟩
  · intro t
    exact ⟨_, by simp [WithType, he, allocSt], allocSt_getElem_new st _⟩
  · intro i
    exact ⟨_, by simp [WithTypeInferer, he, allocSt], allocSt_getElem_new st _⟩
  · intro e' opt hm
    cases opt with
    | withType t => exact Or.inl rfl
    | withTypeInferer i => exact Or.inr rfl
    | withHTTPStatus s => exact hm
    | withMessage d => exact hm
    | withNotFound => exact hm
    | withRetryable => exact hm
  · intro idStr opts
    have step : ∀ (l : List OptionF) (e' : ErrorData), mutexTI e' →
        mutexTI (l.foldl applyOpt e') := by
      intro l
      induction l with
      | nil => exact fun e' h => h
      | cons o rest ih =>
          intro e' h
          refine ih _ ?_
          cases o with
          | withType t => exact Or.inl rfl
          | withTypeInferer i => exact Or.inr rfl
          | withHTTPStatus s => exact h
          | withMessage d => exact h
          | withNotFound => exact h
          | withRetryable => exact h
    exact step opts _ (Or.inl rfl)
  · intro idStr i t f ht
    show ((WithTypeInferer (allocSt st (baseError idStr)).2
        (allocSt st (baseError idStr)).1 i).bind
      fun p₂ => (WithType p₂.2 p₂.1 t).bind
        fun p₃ => (typeFuel (f + 1) p₃.2 p₃.1).map Prod.fst) = some t
    rw [WithTypeInferer, allocSt_getElem_new]
    simp only [Option.map_some', Option.some_bind]
    rw [WithType, allocSt_getElem_new]
    simp only [Option.map_some', Option.some_bind]
    rw [typeFuel_explicit _ _ _ f (allocSt_getElem_new _ _) rfl rfl ht]
    rfl

/-- One-error heap for the C6 witness. -/
def c6St : St := ⟨[baseError "seed"], none, 0⟩

/-- Witness for C6: in particular the scenario
`New("x").WithTypeInferer(f).WithType("Y")` resolves to `"Y"` although the
classifier would answer `"Z"`. -/
theorem type_classifier_mutual_exclusion_witness :
    ((WithTypeInferer (New c6St "x" []).2 (New c6St "x" []).1
        (.const "Z")).bind
      fun p₂ => (WithType p₂.2 p₂.1 "Y").bind
        fun p₃ => (typeFuel 2 p₃.2 p₃.1).map Prod.fst) = some "Y" :=
  ((type_classifier_mutual_exclusion c6St 0 (baseError "seed")
    rfl).2.2.2.2.2.2) "x" (.const "Z") "Y" 1 (by decide)

/-! ## Preservation: a completed resolution only writes caches and the
counter -/

/-- The fields of a heap record that a completed `Type()` call never
changes: everything but the `computedErrType` cache. -/
def coreOf (e : ErrorData) :=
  (e.id, e.msg, e.errType, e.typeInferer, e.status, e.messageData,
   e.stackTraces, e.cause, e.isNotFound, e.isRetryable, e.isStacked,
   e.computing)

/-- State preservation along a completed resolution step: same heap size,
same global classifier, and every record keeps its core fields. -/
def Pres (st st' : St) : Prop :=
  st'.heap.length = st.heap.length ∧
  st'.globalInferer = st.globalInferer ∧
  ∀ b : Nat, (st'.heap[b]?).map coreOf = (st.heap[b]?).map coreOf

theorem pres_refl (st : St) : Pres st st := ⟨rfl, rfl, fun _ => rfl⟩

theorem pres_trans {s₁ s₂ s₃ : St} (h₁ : Pres s₁ s₂) (h₂ : Pres s₂ s₃) :
    Pres s₁ s₃ :=
  ⟨h₂.1.trans h₁.1, h₂.2.1.trans h₁.2.1,
   fun b => (h₂.2.2 b).trans (h₁.2.2 b)⟩

theorem pres_bump (st : St) : Pres st { st with counter := st.counter + 1 } :=
  ⟨rfl, rfl, fun _ => rfl⟩

theorem pres_setCache (st : St) (a : Nat) (r : ErrorType) :
    Pres st (setCache st a r) := by
  refine ⟨modifyAt_length _ _ _, rfl, fun b => ?_⟩
  by_cases hb : b = a
  · subst hb
    cases he : st.heap[b]? with
    | none =>
        rw [show (setCache st b r).heap[b]? = none from by
          rw [setCache]
          rw [show modifyAt st.heap b _ = st.heap from by rw [modifyAt, he]]
          exact he]
    | some e =>
        simp [setCache, modifyAt_getElem_self st.heap b _ e he, he, coreOf]
  · rw [show (setCache st a r).heap[b]? = st.heap[b]? from
      modifyAt_getElem_ne st.heap a b _ hb]

/-- Completing a fresh resolution — mark computing, run the body (which
preserves the marked state), cache, unmark — preserves the original
state. -/
theorem pres_wrap (st : St) (a : Nat) (e : ErrorData) (r : ErrorType)
    (st₂ : St) (he : st.heap[a]? = some e) (hp : e.computing = false)
    (h₂ : Pres (setComputing st a true) st₂) :
    Pres st (setComputing (setCache st₂ a r) a false) := by
  obtain ⟨hlen, hglob, hcore⟩ := h₂
  have hlen1 : (setComputing st a true).heap.length = st.heap.length :=
    modifyAt_length _ _ _
  have ha2 := hcore a
  rw [setComputing_getElem_self st a true e he] at ha2
  obtain ⟨e₂, he₂, hce₂⟩ : ∃ e₂, st₂.heap[a]? = some e₂ ∧
      coreOf e₂ = coreOf { e with computing := true } := by
    cases h2a : st₂.heap[a]? with
    | none => rw [h2a] at ha2; cases ha2
    | some e₂ =>
        rw [h2a] at ha2
        exact ⟨e₂, rfl, Option.some.inj ha2⟩
  refine ⟨?_, hglob, ?_⟩
  · rw [setComputing, modifyAt_length, setCache, modifyAt_length, hlen, hlen1]
  · intro b
    by_cases hb : b = a
    · subst hb
      rw [setComputing_getElem_self (setCache st₂ b r) b false
          { e₂ with computedErrType := r }
          (setCache_getElem_self st₂ b r e₂ he₂), he]
      simp only [coreOf, Prod.mk.injEq] at hce₂ ⊢
      simp only [hce₂]
      simp [coreOf, hp]
    · rw [setComputing_getElem_ne _ _ _ _ hb, setCache_getElem_ne _ _ _ _ hb]
      have := hcore b
      rwa [setComputing_getElem_ne _ _ _ _ hb] at this

theorem evalInf_pres (tf : St → Nat → Option (ErrorType × St))
    (htf : ∀ st a r st', tf st a = some (r, st') → Pres st st') :
    ∀ (i : InfExpr) (st : St) (t : ErrorType) (st' : St),
      evalInf tf st i = some (t, st') → Pres st st' := by
  intro i
  induction i with
  | const c =>
      intro st t st' h
      cases h
      exact pres_refl st
  | count c =>
      intro st t st' h
      cases h
      exact pres_bump st
  | typeOfAddr b =>
      intro st t st' h
      exact htf st b t st' h
  | chain2 i j ihi ihj =>
      intro st t st' h
      rw [evalInf] at h
      cases hev : evalInf tf st i with
      | none => rw [hev] at h; exact Option.noConfusion h
      | some p =>
          obtain ⟨t₁, st₁⟩ := p
          simp only [hev] at h
          by_cases ht₁ : t₁ = TypeUnknown
          · rw [if_neg (by simp [ht₁])] at h
            exact pres_trans (ihi st t₁ st₁ hev) (ihj st₁ t st' h)
          · rw [if_pos (by simp [ht₁])] at h
            cases h
            exact ihi st _ _ hev

theorem tryGlobalInferer_pres (tf : St → Nat → Option (ErrorType × St))
    (htf : ∀ st a r st', tf st a = some (r, st') → Pres st st')
    (st : St) (t : ErrorType) (st' : St)
    (h : tryGlobalInferer tf st = some (t, st')) : Pres st st' := by
  rw [tryGlobalInferer] at h
  cases hg : st.globalInferer with
  | none => simp only [hg] at h; cases h; exact pres_refl st
  | some g =>
      simp only [hg] at h
      cases hev : evalInf tf st g with
      | none => rw [hev] at h; exact Option.noConfusion h
      | some p =>
          obtain ⟨t₁, st₁⟩ := p
          simp only [hev] at h
          by_cases ht₁ : t₁ = TypeUnknown
          · rw [if_neg (by simp [ht₁])] at h
            cases h
            exact evalInf_pres tf htf g st t₁ st' hev
          · rw [if_pos (by simp [ht₁])] at h
            cases h
            exact evalInf_pres tf htf g st t st' hev

theorem computeErrorType_pres (tf : St → Nat → Option (ErrorType × St))
    (htf : ∀ st a r st', tf st a = some (r, st') → Pres st st')
    (st : St) (a : Nat) (t : ErrorType) (st' : St)
    (h : computeErrorType tf st a = some (t, st')) : Pres st st' := by
  rw [computeErrorType] at h
  cases hheap : st.heap[a]? with
  | none => rw [hheap] at h; exact Option.noConfusion h
  | some e =>
      simp only [hheap] at h
      by_cases ht : e.errType = TypeUnknown
      · rw [if_neg (by simp [ht])] at h
        cases hi : e.typeInferer with
        | none =>
            simp only [hi] at h
            exact tryGlobalInferer_pres tf htf st t st' h
        | some inf =>
            simp only [hi] at h
            cases hev : evalInf tf st inf with
            | none => rw [hev] at h; exact Option.noConfusion h
            | some p =>
                obtain ⟨t₁, st₁⟩ := p
                simp only [hev] at h
                by_cases ht₁ : t₁ = TypeUnknown
                · rw [if_neg (by simp [ht₁])] at h
                  exact pres_trans (evalInf_pres tf htf inf st t₁ st₁ hev)
                    (tryGlobalInferer_pres tf htf st₁ t st' h)
                · rw [if_pos (by simp [ht₁])] at h
                  cases h
                  exact evalInf_pres tf htf inf st _ _ hev
      · rw [if_pos (by simp [ht])] at h
        cases h
        exact pres_refl st

theorem typeFuel_pres : ∀ (f : Nat) (st : St) (a : Nat) (r : ErrorType)
    (st' : St), typeFuel f st a = some (r, st') → Pres st st' := by
  intro f
  induction f with
  | zero =>
      intro st a r st' h
      rw [typeFuel] at h
      cases h
  | succ f ih =>
      intro st a r st' h
      rw [typeFuel] at h
      cases hheap : st.heap[a]? with
      | none => rw [hheap] at h; exact Option.noConfusion h
      | some e =>
          simp only [hheap] at h
          by_cases hc : e.computedErrType = ""
          · rw [if_neg (by simp [hc])] at h
            by_cases hp : e.computing = true
            · rw [if_pos hp] at h
              cases h
              exact pres_refl st
            · rw [if_neg hp] at h
              cases hcomp : computeErrorType (typeFuel f)
                  (setComputing st a true) a with
              | none => rw [hcomp] at h; exact Option.noConfusion h
              | some p =>
                  obtain ⟨r₁, st₁⟩ := p
                  simp only [hcomp] at h
                  cases h
                  exact pres_wrap st a e _ _ hheap
                    (Bool.not_eq_true _ ▸ hp)
                    (computeErrorType_pres (typeFuel f) ih
                      (setComputing st a true) a _ _ hcomp)
          · rw [if_pos (by simp [hc])] at h
            cases h
            exact pres_refl st

/-! ## Cache behaviour of `Type()` -/

/-- The cached-result branch of `Type()`. -/
theorem typeFuel_hit_cache (f : Nat) (st : St) (a : Nat) (e : ErrorData)
    (he : st.heap[a]? = some e) (hc : e.computedErrType ≠ "") :
    typeFuel (f + 1) st a = some (e.computedErrType, st) := by
  rw [typeFuel, he]
  simp [hc]

/-- The resolution-in-progress branch of `Type()`. -/
theorem typeFuel_hit_computing (f : Nat) (st : St) (a : Nat) (e : ErrorData)
    (he : st.heap[a]? = some e) (hc : e.computedErrType = "")
    (hp : e.computing = true) :
    typeFuel (f + 1) st a = some (handleRecursion e, st) := by
  rw [typeFuel, he]
  simp [hc, hp]

/-- Once a call to `Type()` has produced a non-empty result, every later
call on the same instance returns that result at once, with the state — in
particular any classifier's invocation counter — untouched. -/
theorem typeFuel_cached_reuse (f : Nat) (st : St) (a : Nat) (r : ErrorType)
    (st₁ : St) (h : typeFuel f st a = some (r, st₁)) (hr : r ≠ "") :
    ∀ f', typeFuel (f' + 1) st₁ a = some (r, st₁) := by
  intro f'
  cases f with
  | zero => rw [typeFuel] at h; exact Option.noConfusion h
  | succ f =>
      rw [typeFuel] at h
      cases hheap : st.heap[a]? with
      | none => rw [hheap] at h; exact Option.noConfusion h
      | some e =>
          simp only [hheap] at h
          by_cases hc : e.computedErrType = ""
          · rw [if_neg (by simp [hc])] at h
            by_cases hp : e.computing = true
            · rw [if_pos hp] at h
              have hpair := Option.some.inj h
              have heq : handleRecursion e = r := congrArg Prod.fst hpair
              have hst : st = st₁ := congrArg Prod.snd hpair
              subst hst
              rw [typeFuel_hit_computing f' st a e hheap hc hp, heq]
            · rw [if_neg hp] at h
              cases hcomp : computeErrorType (typeFuel f)
                  (setComputing st a true) a with
              | none => rw [hcomp] at h; exact Option.noConfusion h
              | some p =>
                  obtain ⟨r₁, st₂⟩ := p
                  simp only [hcomp] at h
                  have hpair : (r₁, setComputing (setCache st₂ a r₁) a false)
                      = (r, st₁) := by
                    cases h
                    rfl
                  have hr₁ : r₁ = r := congrArg Prod.fst hpair
                  subst hr₁
                  have hst₁ : setComputing (setCache st₂ a r₁) a false = st₁ :=
                    congrArg Prod.snd hpair
                  subst hst₁
                  have hpres := computeErrorType_pres (typeFuel f)
                    (typeFuel_pres f) (setComputing st a true) a r₁ st₂ hcomp
                  have ha2 := hpres.2.2 a
                  rw [setComputing_getElem_self st a true e hheap] at ha2
                  obtain ⟨e₂, he₂, -⟩ : ∃ e₂, st₂.heap[a]? = some e₂ ∧
                      coreOf e₂ = coreOf { e with computing := true } := by
                    cases h2a : st₂.heap[a]? with
                    | none => rw [h2a] at ha2; cases ha2
                    | some e₂ =>
                        rw [h2a] at ha2
                        exact ⟨e₂, rfl, Option.some.inj ha2⟩
                  have hfin : (setComputing (setCache st₂ a r₁) a
                      false).heap[a]? = some { e₂ with
                        computedErrType := r₁, computing := false } :=
                    setComputing_getElem_self (setCache st₂ a r₁) a false
                      { e₂ with computedErrType := r₁ }
                      (setCache_getElem_self st₂ a r₁ e₂ he₂)
                  rw [typeFuel_hit_cache f' _ a _ hfin (by simpa using hr)]
          · rw [if_pos (by simp [hc])] at h
            have hpair := Option.some.inj h
            have heq : e.computedErrType = r := congrArg Prod.fst hpair
            have hst : st = st₁ := congrArg Prod.snd hpair
            subst hst
            rw [typeFuel_hit_cache f' st a e hheap (by simp [heq, hr]), heq]

/-- Re-entering `Type()` on an instance whose resolution is in progress
returns without touching the state or invoking anything: the explicit
non-unknown type if set, else the unknown sentinel. -/
theorem typeFuel_reentrant (f : Nat) (st : St) (a : Nat) (e : ErrorData)
    (he : st.heap[a]? = some e) (hp : e.computing = true)
    (hc : e.computedErrType = "") :
    typeFuel (f + 1) st a = some (handleRecursion e, st) ∧
    handleRecursion e =
      (if e.errType = TypeUnknown then TypeUnknown else e.errType) := by
  refine ⟨typeFuel_hit_computing f st a e he hc hp, ?_⟩
  rw [handleRecursion]
  by_cases ht : e.errType = TypeUnknown
  · simp [ht]
  · simp [ht]

/-- A fresh instance whose classifier is the counting classifier: one call
computes, bumps the counter once and caches; any further call returns the
cached type with the counter still at one bump. -/
theorem typeFuel_counting (st : St) (a : Nat) (e : ErrorData) (f : Nat)
    (t : ErrorType) (he : st.heap[a]? = some e)
    (hi : e.typeInferer = some (.count t)) (ht : e.errType = TypeUnknown)
    (hcache : e.computedErrType = "") (hcomp : e.computing = false)
    (htu : t ≠ TypeUnknown) (hte : t ≠ "") :
    ∃ st₁, typeFuel (f + 1) st a = some (t, st₁) ∧
      st₁.counter = st.counter + 1 ∧
      ∀ f', typeFuel (f' + 1) st₁ a = some (t, st₁) := by
  have hup : (setComputing st a true).heap[a]? =
      some { e with computing := true } :=
    setComputing_getElem_self st a true e he
  have hstep : typeFuel (f + 1) st a =
      some (t, setComputing (setCache { setComputing st a true with
        counter := (setComputing st a true).counter + 1 } a t) a false) := by
    rw [typeFuel_fresh st a e f he hcache hcomp, computeErrorType, hup]
    simp only [ht, ne_eq, not_true_eq_false, if_false, ite_false, hi]
    rw [show evalInf (typeFuel f) (setComputing st a true) (.count t) =
      some (t, { setComputing st a true with
        counter := (setComputing st a true).counter + 1 }) from rfl]
    simp [htu]
  refine ⟨_, hstep, rfl, ?_⟩
  exact typeFuel_cached_reuse (f + 1) st a t _ hstep hte

/-! ## Termination of resolution: the non-computing measure -/

/-- A classifier program only mentions allocated addresses. -/
def wfExpr (n : Nat) : InfExpr → Bool
  | .const _ => true
  | .count _ => true
  | .typeOfAddr b => decide (b < n)
  | .chain2 i j => wfExpr n i && wfExpr n j

/-- A record's classifier, if any, only mentions allocated addresses. -/
def wfData (n : Nat) (e : ErrorData) : Bool :=
  e.typeInferer.all (wfExpr n)

/-- Every stored classifier — per instance and global — only mentions
allocated addresses. -/
def wfSt (st : St) : Bool :=
  st.heap.all (wfData st.heap.length) &&
    st.globalInferer.all (wfExpr st.heap.length)

/-- The number of heap records not currently marked as computing: the
measure that strictly drops whenever `Type()` actually starts a
resolution. -/
def nonComputing (st : St) : Nat :=
  st.heap.countP (fun e => !e.computing)

theorem countP_set_balance (l : List ErrorData) (p : ErrorData → Bool)
    (a : Nat) (e x : ErrorData) (he : l[a]? = some e) :
    (l.set a x).countP p + (if p e then 1 else 0)
      = l.countP p + (if p x then 1 else 0) := by
  induction l generalizing a with
  | nil => cases he
  | cons y tail ih =>
      cases a with
      | zero =>
          have heq : y = e := by simpa using he
          subst heq
          simp only [List.set, List.countP_cons]
          cases hpx : p x <;> cases hpy : p y <;> simp [hpx, hpy] <;> omega
      | succ a =>
          have he' : tail[a]? = some e := by simpa using he
          simp only [List.set, List.countP_cons]
          have := ih a he'
          cases hpx : p x <;> cases hpe : p e <;>
            simp [hpx, hpe] at this ⊢ <;> omega

theorem nonComputing_set_true (st : St) (a : Nat) (e : ErrorData)
    (he : st.heap[a]? = some e) (hp : e.computing = false) :
    nonComputing (setComputing st a true) + 1 = nonComputing st := by
  have hbal := countP_set_balance st.heap (fun e => !e.computing) a e
    { e with computing := true } he
  simp only [hp] at hbal
  simp only [nonComputing, setComputing, modifyAt, he]
  simpa using hbal

theorem countP_ext_getElem (l l' : List ErrorData) (p : ErrorData → Bool)
    (hlen : l'.length = l.length)
    (hpt : ∀ b : Nat, (l'[b]?).map p = (l[b]?).map p) :
    l'.countP p = l.countP p := by
  induction l generalizing l' with
  | nil =>
      cases l' with
      | nil => rfl
      | cons y' tail' => simp at hlen
  | cons y tail ih =>
      cases l' with
      | nil => simp at hlen
      | cons y' tail' =>
          have h0 : p y' = p y := by
            have := hpt 0
            simpa using this
          have htail : ∀ b : Nat, (tail'[b]?).map p = (tail[b]?).map p := by
            intro b
            have := hpt (b + 1)
            simpa using this
          have hlen' : tail'.length = tail.length := by simpa using hlen
          simp [List.countP_cons, ih tail' hlen' htail, h0]

theorem nonComputing_congr (st st' : St) (h : Pres st st') :
    nonComputing st' = nonComputing st := by
  refine countP_ext_getElem st.heap st'.heap _ h.1 ?_
  intro b
  have hc := h.2.2 b
  have := congrArg
    (Option.map (fun c : String × String × ErrorType × Option InfExpr ×
      Nat × Option String × List StackTrace × Option ErrVal × Bool × Bool ×
      Bool × Bool => !c.2.2.2.2.2.2.2.2.2.2.2)) hc
  simpa [Option.map_map, Function.comp, coreOf] using this

theorem wfSt_iff (st : St) : wfSt st = true ↔
    ((∀ x ∈ st.heap, wfData st.heap.length x = true) ∧
      st.globalInferer.all (wfExpr st.heap.length) = true) := by
  rw [wfSt, Bool.and_eq_true, List.all_eq_true]

theorem wfData_of_getElem (st : St) (b : Nat) (e : ErrorData)
    (hwf : wfSt st = true) (he : st.heap[b]? = some e) :
    wfData st.heap.length e = true :=
  ((wfSt_iff st).mp hwf).1 e (List.getElem?_mem he)

/-- Preservation carries well-formedness along: same length, same
classifiers. -/
theorem wfSt_pres (st st' : St) (h : Pres st st') (hwf : wfSt st = true) :
    wfSt st' = true := by
  obtain ⟨hlen, hglob, hcore⟩ := h
  rw [wfSt_iff]
  constructor
  · intro x hx
    obtain ⟨b, hb⟩ := List.getElem?_of_mem hx
    have := hcore b
    rw [hb] at this
    cases hs : st.heap[b]? with
    | none => rw [hs] at this; cases this
    | some y =>
        rw [hs] at this
        have hty : x.typeInferer = y.typeInferer := by
          have := congrArg
            (Option.map (fun c : String × String × ErrorType ×
              Option InfExpr × Nat × Option String × List StackTrace ×
              Option ErrVal × Bool × Bool × Bool × Bool => c.2.2.2.1)) this
          simpa [coreOf] using this
        have hy := wfData_of_getElem st b y hwf hs
        rw [wfData, hty, hlen]
        exact hy
  · rw [hglob, hlen]
    exact ((wfSt_iff st).mp hwf).2

/-- Setting the computing flag changes no classifier, so well-formedness
survives. -/
theorem wfSt_setComputing (st : St) (a : Nat) (b : Bool)
    (hwf : wfSt st = true) : wfSt (setComputing st a b) = true := by
  have hlen : (setComputing st a b).heap.length = st.heap.length :=
    modifyAt_length _ _ _
  rw [wfSt_iff]
  constructor
  · intro x hx
    rw [hlen]
    rw [setComputing, modifyAt] at hx
    simp only at hx
    cases hs : st.heap[a]? with
    | none =>
        rw [hs] at hx
        exact ((wfSt_iff st).mp hwf).1 x hx
    | some e =>
        rw [hs] at hx
        rcases List.mem_or_eq_of_mem_set hx with hmem | rfl
        · exact ((wfSt_iff st).mp hwf).1 x hmem
        · have he := ((wfSt_iff st).mp hwf).1 e (List.getElem?_mem hs)
          rw [wfData] at he ⊢
          exact he
  · rw [hlen]
    exact ((wfSt_iff st).mp hwf).2

theorem nonComputing_le_length (st : St) :
    nonComputing st ≤ st.heap.length :=
  List.countP_le_length _

/-- Every classifier program terminates when all stored classifiers are
well-formed: the generic-resolver step, assuming the resolver below is
total on smaller measures and preserving. -/
theorem evalInf_total (tf : St → Nat → Option (ErrorType × St)) (fb : Nat)
    (htotal : ∀ st a, wfSt st = true → a < st.heap.length →
      nonComputing st < fb → (tf st a).isSome)
    (hpres : ∀ st a r st', tf st a = some (r, st') → Pres st st') :
    ∀ (i : InfExpr) (st : St), wfSt st = true →
      wfExpr st.heap.length i = true → nonComputing st < fb →
      (evalInf tf st i).isSome ∧
      (∀ t st', evalInf tf st i = some (t, st') → Pres st st') := by
  intro i
  induction i with
  | const c => exact fun st _ _ _ => ⟨rfl, fun t st' h => by
      cases h; exact pres_refl st⟩
  | count c => exact fun st _ _ _ => ⟨rfl, fun t st' h => by
      cases h; exact pres_bump st⟩
  | typeOfAddr b =>
      intro st hwf hwfe hnc
      refine ⟨htotal st b hwf (by simpa [wfExpr] using hwfe) hnc,
        fun t st' h => hpres st b t st' h⟩
  | chain2 i j ihi ihj =>
      intro st hwf hwfe hnc
      rw [wfExpr, Bool.and_eq_true] at hwfe
      obtain ⟨hi, hj⟩ := hwfe
      obtain ⟨hisome, hipres⟩ := ihi st hwf hi hnc
      rw [Option.isSome_iff_exists] at hisome
      obtain ⟨p, hp⟩ := hisome
      obtain ⟨t₁, st₁⟩ := p
      have hpres₁ := hipres t₁ st₁ hp
      have hwf₁ := wfSt_pres st st₁ hpres₁ hwf
      have hlen₁ : st₁.heap.length = st.heap.length := hpres₁.1
      have hnc₁ : nonComputing st₁ < fb := by
        rw [nonComputing_congr st st₁ hpres₁]
        exact hnc
      constructor
      · rw [evalInf]
        simp only [hp]
        by_cases ht₁ : t₁ = TypeUnknown
        · rw [if_neg (by simp [ht₁])]
          exact (ihj st₁ hwf₁ (by rw [hlen₁]; exact hj) hnc₁).1
        · rw [if_pos (by simp [ht₁])]
          rfl
      · intro t st' h
        exact evalInf_pres tf hpres (.chain2 i j) st t st' h

theorem tryGlobalInferer_total (tf : St → Nat → Option (ErrorType × St))
    (fb : Nat)
    (htotal : ∀ st a, wfSt st = true → a < st.heap.length →
      nonComputing st < fb → (tf st a).isSome)
    (hpres : ∀ st a r st', tf st a = some (r, st') → Pres st st')
    (st : St) (hwf : wfSt st = true) (hnc : nonComputing st < fb) :
    (tryGlobalInferer tf st).isSome := by
  rw [tryGlobalInferer]
  cases hg : st.globalInferer with
  | none => simp only [hg]; rfl
  | some g =>
      simp only [hg]
      have hwfe : wfExpr st.heap.length g = true := by
        have := ((wfSt_iff st).mp hwf).2
        rw [hg] at this
        simpa using this
      obtain ⟨hisome, -⟩ := evalInf_total tf fb htotal hpres g st hwf hwfe hnc
      rw [Option.isSome_iff_exists] at hisome
      obtain ⟨p, hp⟩ := hisome
      obtain ⟨t₁, st₁⟩ := p
      simp only [hp]
      by_cases ht₁ : t₁ = TypeUnknown
      · rw [if_neg (by simp [ht₁])]
        rfl
      · rw [if_pos (by simp [ht₁])]
        rfl

theorem computeErrorType_total (tf : St → Nat → Option (ErrorType × St))
    (fb : Nat)
    (htotal : ∀ st a, wfSt st = true → a < st.heap.length →
      nonComputing st < fb → (tf st a).isSome)
    (hpres : ∀ st a r st', tf st a = some (r, st') → Pres st st')
    (st : St) (a : Nat) (hwf : wfSt st = true) (ha : a < st.heap.length)
    (hnc : nonComputing st < fb) :
    (computeErrorType tf st a).isSome := by
  rw [computeErrorType]
  have he : st.heap[a]? = some st.heap[a] :=
    List.getElem?_eq_getElem ha
  simp only [he]
  by_cases ht : st.heap[a].errType = TypeUnknown
  · rw [if_neg (by simp [ht])]
    cases hi : st.heap[a].typeInferer with
    | none => simp only [hi]; exact tryGlobalInferer_total tf fb htotal hpres st hwf hnc
    | some inf =>
        simp only [hi]
        have hwfe : wfExpr st.heap.length inf = true := by
          have := wfData_of_getElem st a st.heap[a] hwf he
          rw [wfData, hi] at this
          simpa using this
        obtain ⟨hisome, hipres⟩ :=
          evalInf_total tf fb htotal hpres inf st hwf hwfe hnc
        rw [Option.isSome_iff_exists] at hisome
        obtain ⟨p, hp⟩ := hisome
        obtain ⟨t₁, st₁⟩ := p
        simp only [hp]
        by_cases ht₁ : t₁ = TypeUnknown
        · rw [if_neg (by simp [ht₁])]
          have hpres₁ := hipres t₁ st₁ hp
          exact tryGlobalInferer_total tf fb htotal hpres st₁
            (wfSt_pres st st₁ hpres₁ hwf)
            (by rw [nonComputing_congr st st₁ hpres₁]; exact hnc)
        · rw [if_pos (by simp [ht₁])]
          rfl
  · rw [if_pos (by simp [ht])]
    rfl

/-- Resolution always terminates: any fuel exceeding the number of records
not currently being resolved suffices. -/
theorem typeFuel_total : ∀ (f : Nat) (st : St) (a : Nat),
    wfSt st = true → a < st.heap.length → nonComputing st < f →
    (typeFuel f st a).isSome := by
  intro f
  induction f with
  | zero =>
      intro st a _ _ hnc
      exact absurd hnc (Nat.not_lt_zero _)
  | succ f ih =>
      intro st a hwf ha hnc
      have he : st.heap[a]? = some st.heap[a] := List.getElem?_eq_getElem ha
      rw [typeFuel]
      simp only [he]
      by_cases hc : st.heap[a].computedErrType = ""
      · rw [if_neg (by simp [hc])]
        by_cases hp : st.heap[a].computing = true
        · rw [if_pos hp]
          rfl
        · rw [if_neg hp]
          have hp' : st.heap[a].computing = false := by
            simpa using hp
          have hwf₁ : wfSt (setComputing st a true) = true :=
            wfSt_setComputing st a true hwf
          have ha₁ : a < (setComputing st a true).heap.length := by
            have hl : (setComputing st a true).heap.length =
                st.heap.length := modifyAt_length _ _ _
            omega
          have hnc₁ : nonComputing (setComputing st a true) < f := by
            have hbal := nonComputing_set_true st a st.heap[a] he hp'
            omega
          have := computeErrorType_total (typeFuel f) f ih (typeFuel_pres f)
            (setComputing st a true) a hwf₁ ha₁ hnc₁
          rw [Option.isSome_iff_exists] at this
          obtain ⟨p, hp2⟩ := this
          obtain ⟨r₁, st₁⟩ := p
          simp only [hp2]
          rfl
      · rw [if_pos (by simp [hc])]
        rfl

/-- Fuel one past the heap size always resolves. -/
theorem typeFuel_heapSize_total (st : St) (a : Nat) (hwf : wfSt st = true)
    (ha : a < st.heap.length) :
    (typeFuel (st.heap.length + 1) st a).isSome :=
  typeFuel_total (st.heap.length + 1) st a hwf ha
    (Nat.lt_succ_of_le (nonComputing_le_length st))

/-! ## C2 — caching and recursion protection of `Type()` -/

/-- Heap with a classifier that counts its invocations and returns the
empty-string type — the value the cache uses as its "unset" sentinel. -/
def c2CexSt : St :=
  ⟨[{ baseError "x" with typeInferer := some (.count "") }], none, 0⟩

/-- C2 counterexample: a classifier returning the empty-string type is
re-invoked by every `Type()` call — after two calls its counter is 2, not
1 — because the empty string is exactly the cache's empty sentinel, so the
result is never cached. -/
theorem type_cache_empty_sentinel_reinvokes :
    ((typeFuel 2 c2CexSt 0).bind fun p => typeFuel 2 p.2 0).map
        (fun p => p.2.counter) = some 2 ∧ (2 : Nat) ≠ 1 :=
  ⟨rfl, by decide⟩

/-- C2 (amended): `Type()` caches its first computed result whenever that
result is non-empty, and later calls return it without re-running any
classifier (for a counting classifier whose answer is neither the unknown
sentinel nor the empty string, the counter reaches exactly one and stays
there over arbitrarily many repeated calls); re-entering resolution on an
instance in progress short-circuits — the explicit category if set,
otherwise the unknown sentinel, with the state untouched; and resolution
terminates for every well-formed heap of classifiers, mutually-referring
ones included: heap-size-plus-one fuel always yields a result. -/
theorem type_resolution_cached_and_guarded (st : St) (a : Nat)
    (e : ErrorData) (he : st.heap[a]? = some e) :
    (∀ f r st₁, typeFuel f st a = some (r, st₁) → r ≠ "" →
      ∀ f', typeFuel (f' + 1) st₁ a = some (r, st₁)) ∧
    (∀ f t, e.typeInferer = some (.count t) → e.errType = TypeUnknown →
      e.computedErrType = "" → e.computing = false → t ≠ TypeUnknown →
      t ≠ "" →
      ∃ st₁, typeFuel (f + 1) st a = some (t, st₁) ∧
        st₁.counter = st.counter + 1 ∧
        ∀ f', typeFuel (f' + 1) st₁ a = some (t, st₁)) ∧
    (∀ f, e.computing = true → e.computedErrType = "" →
      typeFuel (f + 1) st a = some (handleRecursion e, st) ∧
      handleRecursion e =
        (if e.errType = TypeUnknown then TypeUnknown else e.errType)) ∧
    (∀ (st' : St) (a' : Nat), wfSt st' = true → a' < st'.heap.length →
      (typeFuel (st'.heap.length + 1) st' a').isSome) := by
  refine ⟨?_, ?_, ?_, ?_⟩
  · intro f r st₁ h hr f'
    exact typeFuel_cached_reuse f st a r st₁ h hr f'
  · intro f t hi ht hcache hcomp htu hte
    exact typeFuel_counting st a e f t he hi ht hcache hcomp htu hte
  · intro f hp hc
    exact typeFuel_reentrant f st a e he hp hc
  · intro st' a' hwf ha
    exact typeFuel_heapSize_total st' a' hwf ha

/-- Heap with a normal counting classifier, for the C2 witness. -/
def c2BSt : St :=
  ⟨[{ baseError "x" with typeInferer := some (.count "ct") }], none, 0⟩

/-- Heap with two mutually-referring classifiers, for the C2 witness. -/
def c2WSt : St :=
  ⟨[{ baseError "a" with typeInferer := some (.typeOfAddr 1) },
    { baseError "b" with typeInferer := some (.typeOfAddr 0) }], none, 0⟩

/-- Witness for C2 (amended): the counting classifier's counter is exactly
one after the first call and stays there, and the mutually-referring pair
resolves with heap-size-plus-one fuel. -/
theorem type_resolution_cached_and_guarded_witness :
    (∃ st₁, typeFuel 2 c2BSt 0 = some ("ct", st₁) ∧
      st₁.counter = c2BSt.counter + 1 ∧
      ∀ f', typeFuel (f' + 1) st₁ 0 = some ("ct", st₁)) ∧
    (typeFuel (c2WSt.heap.length + 1) c2WSt 0).isSome :=
  ⟨((type_resolution_cached_and_guarded c2BSt 0
      { baseError "x" with typeInferer := some (.count "ct") }
      rfl).2.1) 1 "ct" rfl rfl rfl rfl (by decide) (by decide),
   ((type_resolution_cached_and_guarded c2WSt 0
      { baseError "a" with typeInferer := some (.typeOfAddr 1) }
      rfl).2.2.2) c2WSt 0 (by decide) (by decide)⟩

/-! ## C1 — `FilterByType` traversal -/

/-- The value `Type()` resolves for an error with no classifier anywhere:
its explicit type when set, the unknown sentinel otherwise. -/
def resolvedSimple (e : ErrorData) : ErrorType :=
  if e.errType = TypeUnknown then TypeUnknown else e.errType

/-- Whether the record at `x` resolves (classifier-free) to `typ`. -/
def typeMatch (st : St) (x : Nat) (typ : ErrorType) : Bool :=
  match st.heap[x]? with
  | some e => decide (resolvedSimple e = typ)
  | none => false

/-- `a :: l` is a native cause chain: each node's cause is the next native
node, the last node has no cause. -/
def chainOK (st : St) : List Nat → Prop
  | [] => True
  | [a] => ∃ e, st.heap[a]? = some e ∧ e.cause = none
  | a :: b :: rest =>
      (∃ e, st.heap[a]? = some e ∧ e.cause = some (.native b)) ∧
      chainOK st (b :: rest)

/-- A node with no classifier and a clean resolution state. -/
def simpleNode (st : St) (x : Nat) : Prop :=
  ∃ e, st.heap[x]? = some e ∧ e.typeInferer = none ∧
    e.computedErrType = "" ∧ e.computing = false

/-- The net state effect of one completed `Type()` call on a fresh
classifier-free node: only the cache cell of that node changes. -/
def cacheOnly (st : St) (x : Nat) (r : ErrorType) : St :=
  setComputing (setCache (setComputing st x true) x r) x false

theorem modifyAt_none (h : List ErrorData) (a : Nat)
    (f : ErrorData → ErrorData) (he : h[a]? = none) : modifyAt h a f = h := by
  rw [modifyAt, he]

theorem cacheOnly_getElem_self (st : St) (x : Nat) (r : ErrorType)
    (e : ErrorData) (he : st.heap[x]? = some e) (hp : e.computing = false) :
    (cacheOnly st x r).heap[x]? = some { e with computedErrType := r } := by
  have h1 := setComputing_getElem_self st x true e he
  have h2 := setCache_getElem_self (setComputing st x true) x r _ h1
  have h3 := setComputing_getElem_self (setCache (setComputing st x true) x r)
    x false _ h2
  rw [show cacheOnly st x r =
    setComputing (setCache (setComputing st x true) x r) x false from rfl, h3]
  obtain ⟨i1, m1, t1, ti1, s1, d1, k1, c1, n1, r1, is1, ce1, co1⟩ := e
  simp only at hp
  subst hp
  rfl

theorem cacheOnly_getElem_ne (st : St) (x : Nat) (r : ErrorType) (y : Nat)
    (hne : y ≠ x) : (cacheOnly st x r).heap[y]? = st.heap[y]? := by
  rw [show cacheOnly st x r =
    setComputing (setCache (setComputing st x true) x r) x false from rfl]
  rw [setComputing_getElem_ne _ _ _ _ hne, setCache_getElem_ne _ _ _ _ hne,
    setComputing_getElem_ne _ _ _ _ hne]

theorem cacheOnly_cause (st : St) (x : Nat) (r : ErrorType) (b : Nat) :
    ((cacheOnly st x r).heap[b]?).map (fun e => e.cause)
      = (st.heap[b]?).map (fun e => e.cause) := by
  by_cases hb : b = x
  · subst hb
    cases he : st.heap[b]? with
    | none =>
        have h1 : (setComputing st b true).heap = st.heap :=
          modifyAt_none st.heap b _ he
        have h2 : (setCache (setComputing st b true) b r).heap = st.heap := by
          rw [setCache, h1]
          exact modifyAt_none st.heap b _ he
        have h3 : (cacheOnly st b r).heap = st.heap := by
          rw [show cacheOnly st b r = setComputing
            (setCache (setComputing st b true) b r) b false from rfl,
            setComputing, h2]
          exact modifyAt_none st.heap b _ he
        rw [h3, he]
    | some e =>
        have h1 := setComputing_getElem_self st b true e he
        have h2 := setCache_getElem_self (setComputing st b true) b r _ h1
        have h3 := setComputing_getElem_self
          (setCache (setComputing st b true) b r) b false _ h2
        rw [show cacheOnly st b r = setComputing
          (setCache (setComputing st b true) b r) b false from rfl, h3]
        rfl
  · rw [cacheOnly_getElem_ne st x r b hb]

/-- `Type()` on a fresh classifier-free node, global classifier absent:
the result is the explicit type or the unknown sentinel, and only that
node's cache cell changes. -/
theorem typeFuel_simple (st : St) (x : Nat) (e : ErrorData) (f : Nat)
    (he : st.heap[x]? = some e) (hi : e.typeInferer = none)
    (hc : e.computedErrType = "") (hp : e.computing = false)
    (hg : st.globalInferer = none) :
    typeFuel (f + 1) st x =
      some (resolvedSimple e, cacheOnly st x (resolvedSimple e)) := by
  have hup : (setComputing st x true).heap[x]? =
      some { e with computing := true } :=
    setComputing_getElem_self st x true e he
  rw [typeFuel_fresh st x e f he hc hp, computeErrorType, hup]
  by_cases ht : e.errType = TypeUnknown
  · simp only [ht, ne_eq, not_true_eq_false, if_false, ite_false, hi]
    rw [tryGlobalInferer]
    rw [show (setComputing st x true).globalInferer = st.globalInferer
      from rfl, hg]
    rw [show resolvedSimple e = TypeUnknown from by
      rw [resolvedSimple, if_pos ht]]
    rfl
  · simp only [ne_eq, ht, not_false_iff, if_true, ite_true]
    rw [show resolvedSimple e = e.errType from by
      rw [resolvedSimple, if_neg ht]]
    rfl

theorem walkFuel_native_fresh (fuel tf : Nat) (typ : ErrorType) (st : St)
    (seen res : List Nat) (a : Nat) (t : ErrorType) (st₁ : St)
    (hseen : seen.contains a = false)
    (htype : typeFuel tf st a = some (t, st₁)) :
    walkFuel (fuel + 1) tf typ st seen res (.native a)
      = walkStep fuel tf typ st₁ (a :: seen)
          (if t = typ then res ++ [a] else res) (.native a) := by
  rw [walkFuel]
  simp only [errorsAs, hseen, Bool.false_eq_true, if_false, htype]

theorem walkFuel_native_seen (fuel tf : Nat) (typ : ErrorType) (st : St)
    (seen res : List Nat) (a : Nat) (hseen : seen.contains a = true) :
    walkFuel (fuel + 1) tf typ st seen res (.native a)
      = some (st, seen, res) := by
  rw [walkFuel]
  simp only [errorsAs, hseen, if_true]

theorem walkStep_native_cause (fuel tf : Nat) (typ : ErrorType) (st : St)
    (seen res : List Nat) (a : Nat) (e : ErrorData)
    (he : st.heap[a]? = some e) :
    walkStep fuel tf typ st seen res (.native a)
      = match e.cause with
        | some u => walkFuel fuel tf typ st seen res u
        | none => some (st, seen, res) := by
  rw [walkStep]
  simp only [errorsUnwrap, he, Option.some_bind]
  simp

theorem chainOK_of_cause_eq (st st' : St)
    (h : ∀ b : Nat, (st'.heap[b]?).map (fun e => e.cause)
      = (st.heap[b]?).map (fun e => e.cause)) :
    ∀ l, chainOK st l → chainOK st' l := by
  intro l
  induction l with
  | nil => exact fun _ => trivial
  | cons a rest ihl =>
      cases rest with
      | nil =>
          rintro ⟨e, he, hc⟩
          have hb := h a
          rw [he] at hb
          simp only [Option.map_some'] at hb
          rw [Option.map_eq_some'] at hb
          obtain ⟨e', hs', hc'⟩ := hb
          have hcc : e'.cause = e.cause := hc'
          exact ⟨e', hs', hcc.trans hc⟩
      | cons b rest' =>
          rintro ⟨⟨e, he, hc⟩, htail⟩
          refine ⟨?_, ihl htail⟩
          have hb := h a
          rw [he] at hb
          simp only [Option.map_some'] at hb
          rw [Option.map_eq_some'] at hb
          obtain ⟨e', hs', hc'⟩ := hb
          have hcc : e'.cause = e.cause := hc'
          exact ⟨e', hs', hcc.trans hc⟩

/-- Walking a duplicate-free, classifier-free native cause chain records
exactly the nodes whose resolved type equals the tag, in chain order,
appended to the accumulator. -/
theorem walk_chain (typ : ErrorType) (tf : Nat) :
    ∀ (rest : List Nat) (a : Nat) (st : St) (seen res : List Nat),
      chainOK st (a :: rest) → (a :: rest).Nodup →
      (∀ x ∈ a :: rest, simpleNode st x) →
      st.globalInferer = none →
      (∀ x ∈ a :: rest, seen.contains x = false) →
      ∃ st' seen',
        walkFuel (rest.length + 1) (tf + 1) typ st seen res (.native a)
          = some (st', seen',
              res ++ (a :: rest).filter (fun x => typeMatch st x typ)) := by
  intro rest
  induction rest with
  | nil =>
      intro a st seen res hchain _ hsimple hg hseen
      obtain ⟨e₀, he₀, hcause⟩ := hchain
      obtain ⟨e, he, hi, hc, hp⟩ := hsimple a (by simp)
      have heq : e₀ = e := by
        rw [he₀] at he
        exact Option.some.inj he
      subst heq
      have htype := typeFuel_simple st a e₀ tf he₀ hi hc hp hg
      simp only [List.length_nil]
      rw [walkFuel_native_fresh 0 (tf + 1) typ st seen res a _ _
        (hseen a (by simp)) htype]
      rw [walkStep_native_cause 0 (tf + 1) typ _ _ _ a
        { e₀ with computedErrType := resolvedSimple e₀ }
        (cacheOnly_getElem_self st a (resolvedSimple e₀) e₀ he₀ hp)]
      simp only [hcause]
      refine ⟨cacheOnly st a (resolvedSimple e₀), a :: seen, ?_⟩
      have hz : (if resolvedSimple e₀ = typ then res ++ [a] else res)
          = res ++ [a].filter (fun x => typeMatch st x typ) := by
        by_cases hm : resolvedSimple e₀ = typ
        · simp [List.filter, typeMatch, he₀, hm]
        · simp [List.filter, typeMatch, he₀, hm]
      rw [hz]
  | cons b rest' ih =>
      intro a st seen res hchain hnodup hsimple hg hseen
      obtain ⟨⟨e₀, he₀, hcause⟩, htail⟩ := hchain
      obtain ⟨e, he, hi, hc, hp⟩ := hsimple a (by simp)
      have heq : e₀ = e := by
        rw [he₀] at he
        exact Option.some.inj he
      subst heq
      have htype := typeFuel_simple st a e₀ tf he₀ hi hc hp hg
      have hlen : (b :: rest').length + 1 = (rest'.length + 1) + 1 := by simp
      rw [hlen]
      rw [walkFuel_native_fresh (rest'.length + 1) (tf + 1) typ st seen res a
        _ _ (hseen a (by simp)) htype]
      rw [walkStep_native_cause (rest'.length + 1) (tf + 1) typ _ _ _ a
        { e₀ with computedErrType := resolvedSimple e₀ }
        (cacheOnly_getElem_self st a (resolvedSimple e₀) e₀ he₀ hp)]
      simp only [hcause]
      have hanotin : a ∉ b :: rest' := by
        have := hnodup
        rw [List.nodup_cons] at this
        exact this.1
      have hlook : ∀ x ∈ b :: rest',
          (cacheOnly st a (resolvedSimple e₀)).heap[x]? = st.heap[x]? := by
        intro x hx
        exact cacheOnly_getElem_ne st a (resolvedSimple e₀) x
          (fun hxa => hanotin (hxa ▸ hx))
      obtain ⟨st'', seen'', hrec⟩ := ih b (cacheOnly st a (resolvedSimple e₀))
        (a :: seen) (if resolvedSimple e₀ = typ then res ++ [a] else res)
        (chainOK_of_cause_eq st _ (cacheOnly_cause st a (resolvedSimple e₀))
          (b :: rest') htail)
        (hnodup.of_cons)
        (fun x hx => by
          obtain ⟨e', he', hi', hc', hp'⟩ := hsimple x (by simp [hx])
          exact ⟨e', (hlook x hx).trans he', hi', hc', hp'⟩)
        (by rw [show (cacheOnly st a (resolvedSimple e₀)).globalInferer
          = st.globalInferer from rfl]; exact hg)
        (fun x hx => by
          have hxa : x ≠ a := fun hxa => hanotin (hxa ▸ hx)
          have hxs := hseen x (by simp [hx])
          simp only [List.contains_cons]
          simp [hxa, by simpa using hxs])
      refine ⟨st'', seen'', ?_⟩
      rw [hrec]
      have hfc : (b :: rest').filter
          (fun x => typeMatch (cacheOnly st a (resolvedSimple e₀)) x typ)
          = (b :: rest').filter (fun x => typeMatch st x typ) :=
        List.filter_congr' (fun x hx => by
          rw [typeMatch, typeMatch, hlook x hx])
      have hz : (if resolvedSimple e₀ = typ then res ++ [a] else res)
            ++ (b :: rest').filter
              (fun x => typeMatch (cacheOnly st a (resolvedSimple e₀)) x typ)
          = res ++ (a :: b :: rest').filter
              (fun x => typeMatch st x typ) := by
        rw [hfc]
        by_cases hm : resolvedSimple e₀ = typ
        · simp [List.filter_cons, typeMatch, he₀, hm, List.append_assoc]
        · simp [List.filter_cons, typeMatch, he₀, hm]
      rw [hz]

theorem walkStep_join (fuel tf : Nat) (typ : ErrorType) (st : St)
    (seen res : List Nat) (l : List ErrVal) :
    walkStep fuel tf typ st seen res (.join l)
      = walkList fuel tf typ st seen res l := by
  rw [walkStep]

theorem filterByType_chain (typ : ErrorType) (tf : Nat) (st : St) (a : Nat)
    (rest : List Nat) (hchain : chainOK st (a :: rest))
    (hnodup : (a :: rest).Nodup)
    (hsimple : ∀ x ∈ a :: rest, simpleNode st x)
    (hg : st.globalInferer = none) :
    ∃ st', FilterByType (rest.length + 1) (tf + 1) st
        (some (.native a)) typ
      = some (st', (a :: rest).filter (fun x => typeMatch st x typ)) := by
  obtain ⟨st', seen', hwalk⟩ := walk_chain typ tf rest a st [] []
    hchain hnodup hsimple hg (fun x _ => rfl)
  refine ⟨st', ?_⟩
  rw [FilterByType, hwalk]
  rfl

theorem filterByType_join_pair (typ : ErrorType) (tf : Nat) (st : St)
    (a : Nat) (fuel : Nat) (hsimple : simpleNode st a)
    (hg : st.globalInferer = none) :
    ∃ st', FilterByType (fuel + 2) (tf + 1) st
        (some (.join [.native a, .native a])) typ
      = some (st', if typeMatch st a typ then [a] else []) := by
  obtain ⟨e, he, hi, hc, hp⟩ := hsimple
  have htype := typeFuel_simple st a e tf he hi hc hp hg
  refine ⟨cacheOnly st a (resolvedSimple e), ?_⟩
  rw [FilterByType]
  rw [show (fuel + 2) = (fuel + 1) + 1 from rfl]
  rw [walkFuel]
  simp only [errorsAs, errorsAsList]
  rw [if_neg (by simp)]
  simp only [htype]
  rw [walkStep_join]
  rw [walkList]
  rw [walkFuel_native_seen fuel (tf + 1) typ _ _ _ a (by simp)]
  simp only [walkList]
  rw [walkFuel_native_seen fuel (tf + 1) typ _ _ _ a (by simp)]
  simp only [walkList, Option.map_some']
  rw [show typeMatch st a typ = decide (resolvedSimple e = typ) from by
    rw [typeMatch, he]]
  by_cases hm : resolvedSimple e = typ
  · simp [hm]
  · simp [hm]

theorem filterByType_join_single (typ : ErrorType) (tf : Nat) (st : St)
    (a : Nat) (fuel : Nat) (hsimple : simpleNode st a)
    (hg : st.globalInferer = none) :
    ∃ st', FilterByType (fuel + 2) (tf + 1) st
        (some (.join [.native a])) typ
      = some (st', if typeMatch st a typ then [a] else []) := by
  obtain ⟨e, he, hi, hc, hp⟩ := hsimple
  have htype := typeFuel_simple st a e tf he hi hc hp hg
  refine ⟨cacheOnly st a (resolvedSimple e), ?_⟩
  rw [FilterByType]
  rw [show (fuel + 2) = (fuel + 1) + 1 from rfl]
  rw [walkFuel]
  simp only [errorsAs, errorsAsList]
  rw [if_neg (by simp)]
  simp only [htype]
  rw [walkStep_join]
  rw [walkList]
  rw [walkFuel_native_seen fuel (tf + 1) typ _ _ _ a (by simp)]
  simp only [walkList, Option.map_some']
  rw [show typeMatch st a typ = decide (resolvedSimple e = typ) from by
    rw [typeMatch, he]]
  by_cases hm : resolvedSimple e = typ
  · simp [hm]
  · simp [hm]

/-- C1 (amended): `FilterByType` resolves every visited native error and
reports the matching ones deduplicated by heap identity — on a pure native
cause chain it continues below every matched node and returns exactly the
matching nodes in order (no deduplication by id); but a join node's
`errors.As` lookup pre-marks the first native error of the branch, so when
the walk enters that branch it returns at the already-seen node without
descending: the same instance reached twice is reported once, and nothing
below the pre-marked node is visited, whatever its cause chain holds. -/
theorem filterByType_traversal (typ : ErrorType) (tf : Nat) :
    (∀ (st : St) (a : Nat) (rest : List Nat),
      chainOK st (a :: rest) → (a :: rest).Nodup →
      (∀ x ∈ a :: rest, simpleNode st x) → st.globalInferer = none →
      ∃ st', FilterByType (rest.length + 1) (tf + 1) st
          (some (.native a)) typ
        = some (st', (a :: rest).filter (fun x => typeMatch st x typ))) ∧
    (∀ (st : St) (a : Nat) (fuel : Nat), simpleNode st a →
      st.globalInferer = none →
      ∃ st', FilterByType (fuel + 2) (tf + 1) st
          (some (.join [.native a, .native a])) typ
        = some (st', if typeMatch st a typ then [a] else [])) ∧
    (∀ (st : St) (a : Nat) (fuel : Nat), simpleNode st a →
      st.globalInferer = none →
      ∃ st', FilterByType (fuel + 2) (tf + 1) st
          (some (.join [.native a])) typ
        = some (st', if typeMatch st a typ then [a] else [])) :=
  ⟨fun st a rest h1 h2 h3 h4 => filterByType_chain typ tf st a rest h1 h2 h3 h4,
   fun st a fuel h1 h2 => filterByType_join_pair typ tf st a fuel h1 h2,
   fun st a fuel h1 h2 => filterByType_join_single typ tf st a fuel h1 h2⟩

/-- The C1 counterexample heap: a join whose single member has type `"T"`
and a native cause, itself of type `"T"`. -/
def c1CexSt : St :=
  ⟨[{ baseError "outer" with errType := "T", cause := some (.native 1) },
    { baseError "inner" with errType := "T" }], none, 0⟩

/-- C1 counterexample: on `Join(outer)` with `outer.cause = inner` and both
resolving to `"T"`, `FilterByType` returns only `outer` — `inner` matches
the tag and sits right below the already-matched `outer`, yet is never
reported, because the walk returns at the node the join-level `errors.As`
lookup had already marked. -/
theorem filterByType_misses_below_join :
    (FilterByType 3 2 c1CexSt (some (.join [.native 0])) "T").map
        (fun p => p.2) = some [0] ∧
    (typeFuel 2 c1CexSt 1).map Prod.fst = some "T" ∧
    (c1CexSt.heap[0]?).map (fun e => e.cause) = some (some (.native 1)) ∧
    (1 : Nat) ∉ [0] := by
  refine ⟨?_, rfl, rfl, by decide⟩
  obtain ⟨st', h⟩ := filterByType_join_single "T" 1 c1CexSt 0 1
    ⟨_, rfl, rfl, rfl, rfl⟩ rfl
  rw [show (3 : Nat) = 1 + 2 from rfl, show (2 : Nat) = 1 + 1 from rfl, h]
  rfl

/-- The C1 witness heap: a two-node chain with equal ids, both `"T"`. -/
def c1WSt : St :=
  ⟨[{ baseError "dup" with errType := "T", cause := some (.native 1) },
    { baseError "dup" with errType := "T" }], none, 0⟩

/-- Witness for C1 (amended): the chain walk reports both equal-id nodes
(no id-based deduplication), and the duplicated-member join reports the
single instance once. -/
theorem filterByType_traversal_witness :
    (∃ st', FilterByType 2 2 c1WSt (some (.native 0)) "T"
      = some (st', ([0, 1] : List Nat).filter
          (fun x => typeMatch c1WSt x "T"))) ∧
    (∃ st', FilterByType 2 2 c1WSt (some (.join [.native 1, .native 1])) "T"
      = some (st', if typeMatch c1WSt 1 "T" then [1] else [])) :=
  ⟨(filterByType_traversal "T" 1).1 c1WSt 0 [1]
      ⟨⟨_, rfl, rfl⟩, ⟨_, rfl, rfl⟩⟩ (by decide)
      (by
        intro x hx
        simp only [List.mem_cons, List.mem_singleton] at hx
        rcases hx with rfl | hx
        · exact ⟨_, rfl, rfl, rfl, rfl⟩
        · rcases hx with rfl | hx
          · exact ⟨_, rfl, rfl, rfl, rfl⟩
          · cases hx) rfl,
   (filterByType_traversal "T" 1).2.1 c1WSt 1 0 ⟨_, rfl, rfl, rfl, rfl⟩ rfl⟩

end Errorsx
